import Mathlib

/-!
# Semaphores, locks and condition variables of `kern/thread/synch.c`

A shallow embedding of the three synchronisation primitives as a transition
system on an explicit kernel state, followed by the properties proved about it.

Conventions of the embedding.

* Handles (`struct semaphore *`, `struct lock *`, `struct cv *`) are natural
  numbers; a handle that exists is never `NULL`.
* Every stretch of code that runs with a spinlock held (from `spinlock_acquire`
  or the return of `wchan_sleep` up to the next `wchan_sleep` or
  `spinlock_release`) is one atomic transition.  The points where another
  thread can be interleaved are exactly the points where no spinlock is held
  (`Pc.cv_296`, `Pc.cv_310`) and the points where the thread sleeps.
* A thread that has been woken is runnable but has not run yet: it takes its
  next transition when the scheduler picks it (`Event.resume`).  The code that
  follows a `wchan_sleep` is a guarded section too: the source releases the
  spinlock at its end (lines 124, 217 and 308), so it runs with the spinlock
  held again.
* An index outside the array `cv->locks` is undefined behaviour in C; here it
  stops the interleaving (`Stop.out_of_bounds`).
* `sem_count` is a 32-bit unsigned integer: arithmetic on it is modulo `2^32`.
* `State.log` is a history variable.  It records, at the source line that
  performs it, every increment, decrement, ownership change, waiter-count
  change and wake-up; no transition reads it.
-/

namespace Synch

abbrev Tid := Nat
abbrev SemId := Nat
abbrev LockId := Nat
abbrev CvId := Nat

/-- Pointwise update of a finite map represented as a function. -/
def upd {κ α : Type} [DecidableEq κ] (f : κ → α) (k : κ) (v : α) : κ → α :=
  fun j => if j = k then v else f j

/-- Wait channels: `sem->sem_wchan` of a semaphore, `lock->lk_wchan` of a lock.
A condition variable has none. -/
inductive Wchan where
  | sem (s : SemId)
  | lk (l : LockId)
  deriving DecidableEq, Repr

/-- Ways a transition ends without producing a state. -/
inductive Stop where
  /-- the `KASSERT` on this source line failed -/
  | kassert (line : Nat)
  /-- an index outside the `cv->locks` array -/
  | out_of_bounds
  /-- the loop bound handed to `cv_broadcast_loop` was too small -/
  | out_of_fuel
  /-- the thread cannot take this transition in this state -/
  | not_enabled
  deriving DecidableEq, Repr

/-- The operations a thread can call. -/
inductive Op where
  | P (sem : SemId)
  | V (sem : SemId)
  | lock_acquire (l : LockId)
  | lock_release (l : LockId)
  | cv_wait (c : CvId) (l : LockId)
  | cv_signal (c : CvId) (l : LockId)
  | cv_broadcast (c : CvId) (l : LockId)
  deriving DecidableEq, Repr

/-- Where a thread is inside an operation; the number is the source line at
which it continues. -/
inductive Pc where
  /-- outside every operation -/
  | idle
  /-- in `wchan_sleep` inside the loop of `P` -/
  | P_119 (sem : SemId)
  /-- in `wchan_sleep` inside the loop of `lock_acquire`; `from_cv` is the
  condition variable when `lock_acquire` was called by `cv_wait` (line 310) -/
  | acquire_210 (l : LockId) (from_cv : Option CvId)
  /-- in `cv_wait`, `lock_release` done, about to take the spinlock -/
  | cv_296 (c : CvId) (l : LockId)
  /-- in `wchan_sleep` inside `cv_wait` -/
  | cv_302 (c : CvId) (l : LockId)
  /-- in `cv_wait`, spinlock released, about to call `lock_acquire` -/
  | cv_310 (c : CvId) (l : LockId)
  deriving DecidableEq, Repr

/-- History records. -/
inductive Obs where
  /-- line 134, `sem->sem_count++`, by thread `t` -/
  | inc (sem : SemId) (t : Tid)
  /-- line 123, `sem->sem_count--`, by thread `t` -/
  | dec (sem : SemId) (t : Tid)
  /-- line 215, `lock->lk_thread = curthread`, by thread `t` -/
  | acquired (l : LockId) (t : Tid)
  /-- line 229, `lock->lk_thread = NULL`, executed by thread `t` -/
  | released (l : LockId) (t : Tid)
  /-- line 300, `cv->lockCount++`, by thread `t` waiting with lock `l` -/
  | cv_enter (c : CvId) (l : LockId) (t : Tid)
  /-- line 306, `cv->lockCount--`, by thread `t` that waited with lock `l` -/
  | cv_leave (c : CvId) (l : LockId) (t : Tid)
  /-- a call of `wchan_wakeone` on `wc` and the thread it made runnable -/
  | wakeone (wc : Wchan) (woken : Option Tid)
  deriving DecidableEq, Repr

/-- The kernel state the primitives read and write. -/
structure State where
  /-- field `sem->sem_count` -/
  sem_count : SemId → Nat
  /-- field `lock->lk_thread`, `none` for `NULL` -/
  lk_thread : LockId → Option Tid
  /-- the array `cv->locks`; its length is the declared bound of the array -/
  locks : CvId → List LockId
  /-- field `cv->lockCount` -/
  lockCount : CvId → Nat
  /-- the threads sleeping on each wait channel, longest-waiting first -/
  wchan : Wchan → List Tid
  /-- where each thread continues -/
  pc : Tid → Pc
  /-- whether the thread is blocked in `wchan_sleep` -/
  asleep : Tid → Bool
  /-- flag `curthread->t_in_interrupt` of each thread -/
  t_in_interrupt : Tid → Bool
  /-- history variable -/
  log : List Obs

/-- Modelled from the spec: `wchan_sleep(wc, guard)` of the wait-channel
subsystem, "atomically release guard and block the calling thread until woken".
The caller `t` joins the back of the queue of `wc` and is blocked; `resume_at`
is the code that follows the call, which the callers in `synch.c` run as a
guarded section. -/
def wchan_sleep (s : State) (wc : Wchan) (t : Tid) (resume_at : Pc) : State :=
  { s with
    wchan := upd s.wchan wc (s.wchan wc ++ [t])
    asleep := upd s.asleep t true
    pc := upd s.pc t resume_at }

/-- Modelled from the spec: `wchan_wakeone(wc, guard)` of the wait-channel
subsystem, "wake the highest-priority/longest-waiting sleeper, a no-op if
none". -/
def wchan_wakeone (s : State) (wc : Wchan) : State :=
  match s.wchan wc with
  | [] => { s with log := s.log ++ [Obs.wakeone wc none] }
  | u :: q =>
    { s with
      wchan := upd s.wchan wc q
      asleep := upd s.asleep u false
      log := s.log ++ [Obs.wakeone wc (some u)] }

/-! ## Semaphore -/

/-- Source function `sem_create`.  `kmalloc_sem` is the result of `kmalloc` (`none` for
`NULL`), `kstrdup_ok` and `wchan_create_ok` tell whether those allocations
succeed.  Returns the handle, `none` for `NULL`. -/
def sem_create (s : State) (kmalloc_sem : Option SemId) (kstrdup_ok wchan_create_ok : Bool)
    (initial_count : Nat) : Option SemId × State :=
  match kmalloc_sem with
  | none => (none, s)
  | some sem =>
    if !kstrdup_ok then (none, s)
    else if !wchan_create_ok then (none, s)
    else
      (some sem,
        { s with
          wchan := upd s.wchan (Wchan.sem sem) []
          sem_count := upd s.sem_count sem (initial_count % 2 ^ 32) })

/-- Source function `P`, lines 105-124: the test of the `while` loop with `sem_lock` held, then
either the sleep of line 119 or the decrement. -/
def P_body (s : State) (t : Tid) (sem : SemId) : Except Stop State :=
  if s.sem_count sem = 0 then
    Except.ok (wchan_sleep s (Wchan.sem sem) t (Pc.P_119 sem))
  else if ¬ (s.sem_count sem > 0) then
    Except.error (Stop.kassert 122)
  else
    Except.ok
      { s with
        sem_count := upd s.sem_count sem (s.sem_count sem - 1)
        pc := upd s.pc t Pc.idle
        log := s.log ++ [Obs.dec sem t] }

/-- Source function `P` from its entry (lines 91-102, then the loop). -/
def P (s : State) (t : Tid) (sem : SemId) : Except Stop State :=
  if ¬ (s.t_in_interrupt t = false) then Except.error (Stop.kassert 99)
  else P_body s t sem

/-- Source function `V`. -/
def V (s : State) (t : Tid) (sem : SemId) : Except Stop State :=
  let s1 : State :=
    { s with
      sem_count := upd s.sem_count sem ((s.sem_count sem + 1) % 2 ^ 32)
      log := s.log ++ [Obs.inc sem t] }
  if ¬ (s1.sem_count sem > 0) then Except.error (Stop.kassert 135)
  else Except.ok (wchan_wakeone s1 (Wchan.sem sem))

/-! ## Lock -/

/-- Source function `lock_create`. -/
def lock_create (s : State) (kmalloc_lock : Option LockId) (kstrdup_ok wchan_create_ok : Bool) :
    Option LockId × State :=
  match kmalloc_lock with
  | none => (none, s)
  | some l =>
    if !kstrdup_ok then (none, s)
    else if !wchan_create_ok then (none, s)
    else
      (some l,
        { s with
          wchan := upd s.wchan (Wchan.lk l) []
          lk_thread := upd s.lk_thread l none })

/-- Source function `lock_acquire`, lines 209-217: the test of the `while` loop with `lk_lock`
held, then either the sleep of line 210 or taking ownership. -/
def lock_acquire_body (s : State) (t : Tid) (l : LockId) (from_cv : Option CvId) :
    Except Stop State :=
  if s.lk_thread l ≠ none then
    Except.ok (wchan_sleep s (Wchan.lk l) t (Pc.acquire_210 l from_cv))
  else if ¬ (s.lk_thread l = none) then
    Except.error (Stop.kassert 213)
  else
    Except.ok
      { s with
        lk_thread := upd s.lk_thread l (some t)
        pc := upd s.pc t Pc.idle
        log := s.log ++ [Obs.acquired l t] }

/-- Source function `lock_acquire` from its entry (lines 200-204, then the loop). -/
def lock_acquire (s : State) (t : Tid) (l : LockId) (from_cv : Option CvId) :
    Except Stop State :=
  if ¬ (s.t_in_interrupt t = false) then Except.error (Stop.kassert 202)
  else lock_acquire_body s t l from_cv

/-- Source function `lock_release`. -/
def lock_release (s : State) (t : Tid) (l : LockId) : Except Stop State :=
  let s1 : State :=
    { s with
      lk_thread := upd s.lk_thread l none
      log := s.log ++ [Obs.released l t] }
  if ¬ (s1.lk_thread l = none) then Except.error (Stop.kassert 231)
  else Except.ok (wchan_wakeone s1 (Wchan.lk l))

/-- Source function `lock_do_i_hold` called by thread `t`; `curcpu_exists` is `CURCPU_EXISTS()`. -/
def lock_do_i_hold (curcpu_exists : Bool) (s : State) (t : Tid) (l : LockId) : Bool :=
  if !curcpu_exists then true
  else decide (s.lk_thread l = some t)

/-! ## Condition variable -/

/-- Source function `cv_create`.  `uninit` is what the freshly allocated `locks` array happens
to contain. -/
def cv_create (s : State) (kmalloc_cv : Option CvId) (kstrdup_ok : Bool) (uninit : List LockId) :
    Option CvId × State :=
  match kmalloc_cv with
  | none => (none, s)
  | some c =>
    if !kstrdup_ok then (none, s)
    else
      (some c,
        { s with
          locks := upd s.locks c uninit
          lockCount := upd s.lockCount c 0 })

/-- Heap objects a destructor hands to `kfree`. -/
inductive HeapObj where
  | cv_name (c : CvId)
  | cv (c : CvId)
  deriving DecidableEq, Repr

/-- Source function `cv_destroy` on the handle `cv` (`none` for `NULL`): the objects it frees,
in order. -/
def cv_destroy (_s : State) (cv : Option CvId) : Except Stop (List HeapObj) :=
  match cv with
  | none => Except.error (Stop.kassert 278)
  | some c => Except.ok [HeapObj.cv_name c, HeapObj.cv c]

/-- Source function `cv_wait`, line 294: the call of `lock_release`. -/
def cv_wait (s : State) (t : Tid) (c : CvId) (l : LockId) : Except Stop State :=
  match lock_release s t l with
  | Except.error e => Except.error e
  | Except.ok s1 => Except.ok { s1 with pc := upd s1.pc t (Pc.cv_296 c l) }

/-- Source function `cv_wait`, lines 296-302: record the lock, count the waiter, sleep on the
lock's wait channel. -/
def cv_wait_296 (s : State) (t : Tid) (c : CvId) (l : LockId) : Except Stop State :=
  if s.lockCount c < (s.locks c).length then
    Except.ok
      (wchan_sleep
        { s with
          locks := upd s.locks c ((s.locks c).set (s.lockCount c) l)
          lockCount := upd s.lockCount c (s.lockCount c + 1)
          log := s.log ++ [Obs.cv_enter c l t] }
        (Wchan.lk l) t (Pc.cv_302 c l))
  else Except.error Stop.out_of_bounds

/-- Source function `cv_wait`, lines 304-308, after the return of `wchan_sleep`. -/
def cv_wait_302 (s : State) (t : Tid) (c : CvId) (l : LockId) : Except Stop State :=
  if ¬ (s.lockCount c > 0) then Except.error (Stop.kassert 304)
  else
    Except.ok
      { s with
        lockCount := upd s.lockCount c (s.lockCount c - 1)
        pc := upd s.pc t (Pc.cv_310 c l)
        log := s.log ++ [Obs.cv_leave c l t] }

/-- Source function `cv_wait`, line 310: the call of `lock_acquire`. -/
def cv_wait_310 (s : State) (t : Tid) (c : CvId) (l : LockId) : Except Stop State :=
  lock_acquire s t l (some c)

/-- Source function `cv_signal`.  The lock argument only selects the spinlock. -/
def cv_signal (s : State) (c : CvId) (_l : LockId) : Except Stop State :=
  if s.lockCount c > 0 then
    let lastLockIndex := s.lockCount c - 1
    match (s.locks c).get? lastLockIndex with
    | some lk => Except.ok (wchan_wakeone s (Wchan.lk lk))
    | none => Except.error Stop.out_of_bounds
  else Except.ok s

/-- The `for` loop of `cv_broadcast` from index `i`; `fuel` bounds the number
of iterations. -/
def cv_broadcast_loop (c : CvId) : Nat → State → Nat → Except Stop State
  | 0, s, i => if i < s.lockCount c then Except.error Stop.out_of_fuel else Except.ok s
  | fuel + 1, s, i =>
    if i < s.lockCount c then
      match (s.locks c).get? i with
      | some lk => cv_broadcast_loop c fuel (wchan_wakeone s (Wchan.lk lk)) (i + 1)
      | none => Except.error Stop.out_of_bounds
    else Except.ok s

/-- Source function `cv_broadcast`.  The lock argument only selects the spinlock. -/
def cv_broadcast (s : State) (c : CvId) (_l : LockId) : Except Stop State :=
  cv_broadcast_loop c (s.lockCount c) s 0

/-! ## Threads and interleavings -/

/-- What the scheduler lets happen next. -/
inductive Event where
  /-- thread `t`, outside every operation, calls `op` -/
  | call (t : Tid) (op : Op)
  /-- thread `t`, runnable inside an operation, runs up to its next sleep,
  its next unguarded point, or its return -/
  | resume (t : Tid)
  deriving DecidableEq, Repr

/-- One transition. -/
def step (s : State) : Event → Except Stop State
  | Event.call t op =>
    if s.pc t = Pc.idle ∧ s.asleep t = false then
      match op with
      | Op.P sem => P s t sem
      | Op.V sem => V s t sem
      | Op.lock_acquire l => lock_acquire s t l none
      | Op.lock_release l => lock_release s t l
      | Op.cv_wait c l => cv_wait s t c l
      | Op.cv_signal c l => cv_signal s c l
      | Op.cv_broadcast c l => cv_broadcast s c l
    else Except.error Stop.not_enabled
  | Event.resume t =>
    if s.asleep t = false then
      match s.pc t with
      | Pc.idle => Except.error Stop.not_enabled
      | Pc.P_119 sem => P_body s t sem
      | Pc.acquire_210 l from_cv => lock_acquire_body s t l from_cv
      | Pc.cv_296 c l => cv_wait_296 s t c l
      | Pc.cv_302 c l => cv_wait_302 s t c l
      | Pc.cv_310 c l => cv_wait_310 s t c l
    else Except.error Stop.not_enabled

/-- An interleaving: the transitions of a list of events, in order. -/
def run (s : State) : List Event → Except Stop State
  | [] => Except.ok s
  | e :: es =>
    match step s e with
    | Except.ok s1 => run s1 es
    | Except.error x => Except.error x

/-- The state before any primitive exists: no thread is inside an operation. -/
def blank : State :=
  { sem_count := fun _ => 0
    lk_thread := fun _ => none
    locks := fun _ => []
    lockCount := fun _ => 0
    wchan := fun _ => []
    pc := fun _ => Pc.idle
    asleep := fun _ => false
    t_in_interrupt := fun _ => false
    log := [] }

/-! ## History: what the log says has happened -/

/-- Recognises the record of a completed increment of semaphore `sem`. -/
def is_inc (sem : SemId) : Obs → Bool
  | Obs.inc sem1 _ => decide (sem1 = sem)
  | _ => false

/-- Recognises the record of a completed decrement of semaphore `sem`. -/
def is_dec (sem : SemId) : Obs → Bool
  | Obs.dec sem1 _ => decide (sem1 = sem)
  | _ => false

/-- Number of `V` calls on `sem` that have completed their increment. -/
def incs (log : List Obs) (sem : SemId) : Nat := log.countP (is_inc sem)

/-- Number of `P` calls on `sem` that have completed their decrement. -/
def decs (log : List Obs) (sem : SemId) : Nat := log.countP (is_dec sem)

/-- Effect of one record on the list of threads that are between the
completion of their `lock_acquire` on `l` and their `lock_release` of it. -/
def holders_step (l : LockId) (hs : List Tid) : Obs → List Tid
  | Obs.acquired l1 t => if l1 = l then hs ++ [t] else hs
  | Obs.released l1 t => if l1 = l then hs.erase t else hs
  | _ => hs

/-- The threads that are between the completion of their `lock_acquire` on `l`
and their matching `lock_release`, oldest first. -/
def holders (log : List Obs) (l : LockId) : List Tid :=
  log.foldl (holders_step l) []

/-- Effect of one record on the list of threads waiting on `c`. -/
def waiting_step (c : CvId) (ws : List (Tid × LockId)) : Obs → List (Tid × LockId)
  | Obs.cv_enter c1 l t => if c1 = c then ws ++ [(t, l)] else ws
  | Obs.cv_leave c1 l t => if c1 = c then ws.erase (t, l) else ws
  | _ => ws

/-- The threads waiting on `c`, that is, those whose `cv_wait` has incremented
`lockCount` and not yet decremented it, each with the lock it waited with, in
the order in which they started waiting. -/
def waiting (log : List Obs) (c : CvId) : List (Tid × LockId) :=
  log.foldl (waiting_step c) []

/-! ## Classifying threads and interleavings -/

/-- The wait channel a thread at `p` sleeps on when it is asleep. -/
def parked_on : Pc → Option Wchan
  | Pc.P_119 sem => some (Wchan.sem sem)
  | Pc.acquire_210 l _ => some (Wchan.lk l)
  | Pc.cv_302 _ l => some (Wchan.lk l)
  | _ => none

/-- The thread is inside the loop of `lock_acquire` on `l`. -/
def in_lock_acquire (l : LockId) : Pc → Bool
  | Pc.acquire_210 l1 _ => decide (l1 = l)
  | _ => false

/-- The thread is somewhere inside `cv_wait (c, l)`. -/
def in_cv_wait (c : CvId) (l : LockId) : Pc → Bool
  | Pc.cv_296 c1 l1 => decide (c1 = c ∧ l1 = l)
  | Pc.cv_302 c1 l1 => decide (c1 = c ∧ l1 = l)
  | Pc.cv_310 c1 l1 => decide (c1 = c ∧ l1 = l)
  | Pc.acquire_210 l1 (some c1) => decide (c1 = c ∧ l1 = l)
  | _ => false

/-- Every event of the interleaving satisfies `g` in the state in which it is
issued. -/
def along (g : State → Event → Bool) : State → List Event → Bool
  | _, [] => true
  | s, e :: es =>
    g s e &&
      (match step s e with
       | Except.ok s1 => along g s1 es
       | Except.error _ => true)

/-- The event is not a release of `l` (by `lock_release` or by the
`lock_release` at the head of `cv_wait`) by a thread other than one that has
completed a `lock_acquire` on `l` and not released it since. -/
def matching_release (l : LockId) (s : State) : Event → Bool
  | Event.call t (Op.lock_release l1) => if l1 = l then decide (t ∈ holders s.log l) else true
  | Event.call t (Op.cv_wait _ l1) => if l1 = l then decide (t ∈ holders s.log l) else true
  | _ => true

/-- The event is not a `cv_wait` on `c` with a lock other than `l`. -/
def waits_with (c : CvId) (l : LockId) (_s : State) : Event → Bool
  | Event.call _ (Op.cv_wait c1 l1) => if c1 = c then decide (l1 = l) else true
  | _ => true

/-- The event is not the recording of a lock by `cv_wait` on `c` (lines
298-300) at a moment when `lockCount` has reached the length of the array
`locks`: no more threads wait on `c` than the array holds. -/
def has_room (c : CvId) (s : State) : Event → Bool
  | Event.resume t =>
    match s.pc t with
    | Pc.cv_296 c1 _ => if c1 = c then decide (s.lockCount c < (s.locks c).length) else true
    | _ => true
  | _ => true

/-- States in which the primitives exist and no thread has called into them
yet. -/
structure Initial (s : State) : Prop where
  log : s.log = []
  pc : ∀ t, s.pc t = Pc.idle
  asleep : ∀ t, s.asleep t = false
  wchan : ∀ wc, s.wchan wc = []
  lk_thread : ∀ l, s.lk_thread l = none
  lockCount : ∀ c, s.lockCount c = 0
  sem_count : ∀ sem, s.sem_count sem < 2 ^ 32

/-- Thread `t` is at the code that `e` runs for `P (sem)`: its entry, or the
return of the sleep of line 119. -/
def at_P (s : State) (e : Event) (t : Tid) (sem : SemId) : Prop :=
  (e = Event.call t (Op.P sem) ∧ s.pc t = Pc.idle ∧ s.t_in_interrupt t = false) ∨
  (e = Event.resume t ∧ s.pc t = Pc.P_119 sem)

/-- Thread `t` is at the code that `e` runs for `lock_acquire (l)`: its entry
from a caller or from line 310 of `cv_wait`, or the return of the sleep of
line 210. -/
def at_acquire (s : State) (e : Event) (t : Tid) (l : LockId) (k : Option CvId) : Prop :=
  (e = Event.call t (Op.lock_acquire l) ∧ s.pc t = Pc.idle ∧ k = none ∧
    s.t_in_interrupt t = false) ∨
  (e = Event.resume t ∧ s.pc t = Pc.acquire_210 l k) ∨
  (e = Event.resume t ∧ (∃ c, s.pc t = Pc.cv_310 c l ∧ k = some c) ∧
    s.t_in_interrupt t = false)

/-- The transitions, one constructor for each guarded section. -/
inductive Fires (s : State) (e : Event) : State → Prop where
  | P_sleep (t : Tid) (sem : SemId) :
    at_P s e t sem → s.asleep t = false → s.sem_count sem = 0 →
    Fires s e (wchan_sleep s (Wchan.sem sem) t (Pc.P_119 sem))
  | P_dec (t : Tid) (sem : SemId) :
    at_P s e t sem → s.asleep t = false → 0 < s.sem_count sem →
    Fires s e
      { s with
        sem_count := upd s.sem_count sem (s.sem_count sem - 1)
        pc := upd s.pc t Pc.idle
        log := s.log ++ [Obs.dec sem t] }
  | V_inc (t : Tid) (sem : SemId) :
    e = Event.call t (Op.V sem) → s.pc t = Pc.idle → s.asleep t = false →
    0 < (s.sem_count sem + 1) % 2 ^ 32 →
    Fires s e
      (wchan_wakeone
        { s with
          sem_count := upd s.sem_count sem ((s.sem_count sem + 1) % 2 ^ 32)
          log := s.log ++ [Obs.inc sem t] }
        (Wchan.sem sem))
  | acquire_sleep (t : Tid) (l : LockId) (k : Option CvId) :
    at_acquire s e t l k → s.asleep t = false → s.lk_thread l ≠ none →
    Fires s e (wchan_sleep s (Wchan.lk l) t (Pc.acquire_210 l k))
  | acquire_take (t : Tid) (l : LockId) (k : Option CvId) :
    at_acquire s e t l k → s.asleep t = false → s.lk_thread l = none →
    Fires s e
      { s with
        lk_thread := upd s.lk_thread l (some t)
        pc := upd s.pc t Pc.idle
        log := s.log ++ [Obs.acquired l t] }
  | release (t : Tid) (l : LockId) :
    e = Event.call t (Op.lock_release l) → s.pc t = Pc.idle → s.asleep t = false →
    Fires s e
      (wchan_wakeone
        { s with
          lk_thread := upd s.lk_thread l none
          log := s.log ++ [Obs.released l t] }
        (Wchan.lk l))
  | cv_release (t : Tid) (c : CvId) (l : LockId) :
    e = Event.call t (Op.cv_wait c l) → s.pc t = Pc.idle → s.asleep t = false →
    Fires s e
      { wchan_wakeone
          { s with
            lk_thread := upd s.lk_thread l none
            log := s.log ++ [Obs.released l t] }
          (Wchan.lk l) with
        pc := upd s.pc t (Pc.cv_296 c l) }
  | cv_enter (t : Tid) (c : CvId) (l : LockId) :
    e = Event.resume t → s.pc t = Pc.cv_296 c l → s.asleep t = false →
    s.lockCount c < (s.locks c).length →
    Fires s e
      (wchan_sleep
        { s with
          locks := upd s.locks c ((s.locks c).set (s.lockCount c) l)
          lockCount := upd s.lockCount c (s.lockCount c + 1)
          log := s.log ++ [Obs.cv_enter c l t] }
        (Wchan.lk l) t (Pc.cv_302 c l))
  | cv_leave (t : Tid) (c : CvId) (l : LockId) :
    e = Event.resume t → s.pc t = Pc.cv_302 c l → s.asleep t = false →
    0 < s.lockCount c →
    Fires s e
      { s with
        lockCount := upd s.lockCount c (s.lockCount c - 1)
        pc := upd s.pc t (Pc.cv_310 c l)
        log := s.log ++ [Obs.cv_leave c l t] }
  | signal (t : Tid) (c : CvId) (l lk : LockId) :
    e = Event.call t (Op.cv_signal c l) → s.pc t = Pc.idle → s.asleep t = false →
    0 < s.lockCount c → (s.locks c).get? (s.lockCount c - 1) = some lk →
    Fires s e (wchan_wakeone s (Wchan.lk lk))
  | signal_none (t : Tid) (c : CvId) (l : LockId) :
    e = Event.call t (Op.cv_signal c l) → s.pc t = Pc.idle → s.asleep t = false →
    s.lockCount c = 0 →
    Fires s e s
  | broadcast (t : Tid) (c : CvId) (l : LockId) (s1 : State) :
    e = Event.call t (Op.cv_broadcast c l) → s.pc t = Pc.idle → s.asleep t = false →
    cv_broadcast_loop c (s.lockCount c) s 0 = Except.ok s1 →
    Fires s e s1

/-! ## Invariants -/

/-- Conservation for semaphore `sem` created with count `n`: the count is the
initial count plus the increments minus the decrements, and is representable. -/
def SemInv (n : Nat) (sem : SemId) (s : State) : Prop :=
  s.sem_count sem + decs s.log sem = n + incs s.log sem ∧ s.sem_count sem < 2 ^ 32

/-- The owner field of `l` is the one thread inside its acquire-release window,
`NULL` when there is none. -/
def LockInv (l : LockId) (s : State) : Prop :=
  holders s.log l = (s.lk_thread l).toList

/-- The waiter count of `c` is the number of threads waiting on it, stays
inside the array, and the waiting threads are those at the sleep of `cv_wait`. -/
def CvInv (c : CvId) (s : State) : Prop :=
  (waiting s.log c).length = s.lockCount c ∧
  s.lockCount c ≤ (s.locks c).length ∧
  (waiting s.log c).Nodup ∧
  ∀ t l, (t, l) ∈ waiting s.log c ↔ s.pc t = Pc.cv_302 c l

/-- The queue of every wait channel holds, once each, the sleeping threads
whose sleep is on that channel. -/
def WF (s : State) : Prop :=
  (∀ wc, (s.wchan wc).Nodup) ∧
  ∀ t wc, t ∈ s.wchan wc ↔ (s.asleep t = true ∧ parked_on (s.pc t) = some wc)

/-- Every `cv_wait` on `c` so far was called with lock `l0`: the recorded
entries, the threads about to record one and the waiting threads all have it. -/
def CvSame (c : CvId) (l0 : LockId) (s : State) : Prop :=
  (∀ i, i < s.lockCount c → (s.locks c).get? i = some l0) ∧
  (∀ t l, s.pc t = Pc.cv_296 c l → l = l0) ∧
  (∀ p ∈ waiting s.log c, p.2 = l0)

/-! ## Derived operations and concrete scenarios -/

/-- One `wchan_wakeone` on the wait channel of each lock of the list, in order. -/
def wake_each (s : State) (ls : List LockId) : State :=
  ls.foldl (fun x lk => wchan_wakeone x (Wchan.lk lk)) s

/-- The state an interleaving ends in; the start state when it stops early. -/
def after (s : State) (evs : List Event) : State :=
  match run s evs with
  | Except.ok s1 => s1
  | Except.error _ => s

/-- An interrupt handler starts running in the context of thread `t`. -/
def enter_interrupt (s : State) (t : Tid) : State :=
  { s with t_in_interrupt := upd s.t_in_interrupt t true }

/-- One semaphore of count 0, one lock and one condition variable with room
for two waiters, all with handle 0, created on the blank state. -/
def demo : State :=
  (cv_create
    (lock_create (sem_create blank (some 0) true true 0).2 (some 0) true true).2
    (some 0) true [0, 0]).2

/-- Two locks, 1 and 2, and the condition variable 0 with room for two
waiters, created on the blank state. -/
def demo2 : State :=
  (cv_create
    (lock_create (lock_create blank (some 1) true true).2 (some 2) true true).2
    (some 0) true [0, 0]).2

/-- Thread 1 takes lock 0, waits on the condition variable and sleeps; thread 2
takes the lock; thread 3 asks for the lock and sleeps behind thread 1. -/
def acquirer_behind_waiter : List Event :=
  [Event.call 1 (Op.lock_acquire 0), Event.call 1 (Op.cv_wait 0 0), Event.resume 1,
    Event.call 2 (Op.lock_acquire 0), Event.call 3 (Op.lock_acquire 0)]

/-- Thread 1 takes lock 0; threads 3 and 4 ask for it and sleep; thread 1
waits on the condition variable: its `lock_release` wakes thread 3 and it
sleeps behind thread 4; thread 3 runs and takes the lock. -/
def waiter_behind_acquirer : List Event :=
  [Event.call 1 (Op.lock_acquire 0), Event.call 3 (Op.lock_acquire 0),
    Event.call 4 (Op.lock_acquire 0), Event.call 1 (Op.cv_wait 0 0), Event.resume 1,
    Event.resume 3]

/-- Threads 1 and 2 wait on condition variable 0 with locks 1 and 2; thread 3
takes lock 1 and releases it, which wakes thread 1; thread 1 runs. -/
def two_locks_first_leaves : List Event :=
  [Event.call 1 (Op.lock_acquire 1), Event.call 2 (Op.lock_acquire 2),
    Event.call 1 (Op.cv_wait 0 1), Event.resume 1,
    Event.call 2 (Op.cv_wait 0 2), Event.resume 2,
    Event.call 3 (Op.lock_acquire 1), Event.call 3 (Op.lock_release 1), Event.resume 1]

/-- Threads 1 and 2 wait on condition variable 0, both with lock 0; thread 3
takes the lock and releases it, which wakes thread 1; thread 1 runs. -/
def one_lock_first_leaves : List Event :=
  [Event.call 1 (Op.lock_acquire 0), Event.call 1 (Op.cv_wait 0 0), Event.resume 1,
    Event.call 2 (Op.lock_acquire 0), Event.call 2 (Op.cv_wait 0 0), Event.resume 2,
    Event.call 3 (Op.lock_acquire 0), Event.call 3 (Op.lock_release 0), Event.resume 1]

/-- Thread 1 takes lock 0, waits on the condition variable and sleeps; thread 2
takes the lock, signals and releases; thread 1 runs up to line 310. -/
def wait_signal_release : List Event :=
  [Event.call 1 (Op.lock_acquire 0), Event.call 1 (Op.cv_wait 0 0), Event.resume 1,
    Event.call 2 (Op.lock_acquire 0), Event.call 2 (Op.cv_signal 0 0),
    Event.call 2 (Op.lock_release 0), Event.resume 1]

/-! ## Basic facts about the state -/

@[simp]
theorem upd_same {κ α : Type} [DecidableEq κ] (f : κ → α) (k : κ) (v : α) :
    upd f k v k = v := by
  simp [upd]

theorem upd_other {κ α : Type} [DecidableEq κ] (f : κ → α) (k j : κ) (v : α) (h : j ≠ k) :
    upd f k v j = f j := by
  simp [upd, h]

theorem upd_apply {κ α : Type} [DecidableEq κ] (f : κ → α) (k j : κ) (v : α) :
    upd f k v j = if j = k then v else f j := rfl

@[simp]
theorem wakeone_sem_count (s : State) (wc : Wchan) :
    (wchan_wakeone s wc).sem_count = s.sem_count := by
  unfold wchan_wakeone; split <;> rfl

@[simp]
theorem wakeone_lk_thread (s : State) (wc : Wchan) :
    (wchan_wakeone s wc).lk_thread = s.lk_thread := by
  unfold wchan_wakeone; split <;> rfl

@[simp]
theorem wakeone_locks (s : State) (wc : Wchan) :
    (wchan_wakeone s wc).locks = s.locks := by
  unfold wchan_wakeone; split <;> rfl

@[simp]
theorem wakeone_lockCount (s : State) (wc : Wchan) :
    (wchan_wakeone s wc).lockCount = s.lockCount := by
  unfold wchan_wakeone; split <;> rfl

@[simp]
theorem wakeone_pc (s : State) (wc : Wchan) :
    (wchan_wakeone s wc).pc = s.pc := by
  unfold wchan_wakeone; split <;> rfl

@[simp]
theorem wakeone_t_in_interrupt (s : State) (wc : Wchan) :
    (wchan_wakeone s wc).t_in_interrupt = s.t_in_interrupt := by
  unfold wchan_wakeone; split <;> rfl

@[simp]
theorem wakeone_log (s : State) (wc : Wchan) :
    (wchan_wakeone s wc).log = s.log ++ [Obs.wakeone wc (s.wchan wc).head?] := by
  unfold wchan_wakeone; split <;> simp_all

theorem wakeone_wchan (s : State) (wc wc1 : Wchan) :
    (wchan_wakeone s wc).wchan wc1 = if wc1 = wc then (s.wchan wc).tail else s.wchan wc1 := by
  unfold wchan_wakeone
  split
  · rename_i h
    by_cases hw : wc1 = wc
    · subst hw; simp [h]
    · simp [hw]
  · rename_i u q h
    simp [upd, h]

theorem wakeone_asleep (s : State) (wc : Wchan) (t : Tid) :
    (wchan_wakeone s wc).asleep t =
      if (s.wchan wc).head? = some t then false else s.asleep t := by
  unfold wchan_wakeone
  split
  · rename_i h; simp [h]
  · rename_i u q h
    simp only [upd, h, List.head?_cons, Option.some.injEq]
    by_cases hu : t = u
    · subst hu; simp
    · have : ¬ u = t := fun e => hu e.symm
      simp [hu, this]

/-! ## Every transition is one of the guarded sections -/

theorem step_fires (s : State) (e : Event) (s1 : State) (h : step s e = Except.ok s1) :
    Fires s e s1 := by
  cases e with
  | call t op =>
    have hen : s.pc t = Pc.idle ∧ s.asleep t = false := by
      by_contra hn
      simp [step, hn] at h
    obtain ⟨hidle, hawake⟩ := hen
    cases op with
    | P sem =>
      simp only [step, hidle, hawake, and_self, if_true, P, P_body] at h
      split_ifs at h with h1 h2
      · cases h
        exact Fires.P_sleep t sem (Or.inl ⟨rfl, hidle, by simpa using h1⟩) hawake h2
      · cases h
        exact Fires.P_dec t sem (Or.inl ⟨rfl, hidle, by simpa using h1⟩) hawake (by omega)
    | V sem =>
      simp only [step, hidle, hawake, and_self, if_true, V, upd_same] at h
      split_ifs at h with h1
      cases h
      exact Fires.V_inc t sem rfl hidle hawake (by omega)
    | lock_acquire l =>
      simp only [step, hidle, hawake, and_self, if_true, lock_acquire, lock_acquire_body] at h
      split_ifs at h with h1 h2
      · cases h
        exact Fires.acquire_sleep t l none (Or.inl ⟨rfl, hidle, rfl, by simpa using h1⟩) hawake h2
      · cases h
        exact Fires.acquire_take t l none (Or.inl ⟨rfl, hidle, rfl, by simpa using h1⟩) hawake
          (by simpa using h2)
    | lock_release l =>
      simp only [step, hidle, hawake, and_self, if_true, lock_release, upd_same] at h
      split_ifs at h with h1
      · cases h
        exact Fires.release t l rfl hidle hawake
    | cv_wait c l =>
      simp only [step, hidle, hawake, and_self, if_true, cv_wait, lock_release, upd_same] at h
      split_ifs at h with h1
      · simp only [Except.ok.injEq] at h
        subst h
        simpa using Fires.cv_release t c l rfl hidle hawake
    | cv_signal c l =>
      simp only [step, hidle, hawake, and_self, if_true, cv_signal] at h
      split_ifs at h with h1
      · split at h
        · rename_i lk hlk
          cases h
          exact Fires.signal t c l lk rfl hidle hawake h1 hlk
        · cases h
      · cases h
        exact Fires.signal_none t c l rfl hidle hawake (by omega)
    | cv_broadcast c l =>
      simp only [step, hidle, hawake, and_self, if_true, cv_broadcast] at h
      exact Fires.broadcast t c l s1 rfl hidle hawake h
  | resume t =>
    have hawake : s.asleep t = false := by
      by_contra hn
      simp [step, hn] at h
    simp only [step, hawake, if_true] at h
    split at h
    · cases h
    · rename_i sem hpc
      simp only [P_body] at h
      split_ifs at h with h2
      · cases h
        exact Fires.P_sleep t sem (Or.inr ⟨rfl, hpc⟩) hawake h2
      · cases h
        exact Fires.P_dec t sem (Or.inr ⟨rfl, hpc⟩) hawake (by omega)
    · rename_i l k hpc
      simp only [lock_acquire_body] at h
      split_ifs at h with h2
      · cases h
        exact Fires.acquire_sleep t l k (Or.inr (Or.inl ⟨rfl, hpc⟩)) hawake h2
      · cases h
        exact Fires.acquire_take t l k (Or.inr (Or.inl ⟨rfl, hpc⟩)) hawake (by simpa using h2)
    · rename_i c l hpc
      simp only [cv_wait_296] at h
      split_ifs at h with h1
      cases h
      exact Fires.cv_enter t c l rfl hpc hawake h1
    · rename_i c l hpc
      simp only [cv_wait_302] at h
      split_ifs at h with h1
      cases h
      exact Fires.cv_leave t c l rfl hpc hawake (by omega)
    · rename_i c l hpc
      simp only [cv_wait_310, lock_acquire, lock_acquire_body] at h
      split_ifs at h with h1 h2
      · cases h
        exact Fires.acquire_sleep t l (some c)
          (Or.inr (Or.inr ⟨rfl, ⟨c, hpc, rfl⟩, by simpa using h1⟩)) hawake h2
      · cases h
        exact Fires.acquire_take t l (some c)
          (Or.inr (Or.inr ⟨rfl, ⟨c, hpc, rfl⟩, by simpa using h1⟩)) hawake (by simpa using h2)


/-! ## Induction along interleavings -/

theorem run_along_inv (Inv : State → Prop) (g : State → Event → Bool)
    (hstep : ∀ s e s1, Inv s → g s e = true → step s e = Except.ok s1 → Inv s1) :
    ∀ (evs : List Event) (s s1 : State),
      Inv s → along g s evs = true → run s evs = Except.ok s1 → Inv s1 := by
  intro evs
  induction evs with
  | nil =>
    intro s s1 hI _ hr
    simp only [run, Except.ok.injEq] at hr
    subst hr
    exact hI
  | cons e es ih =>
    intro s s1 hI hg hr
    simp only [run] at hr
    simp only [along, Bool.and_eq_true] at hg
    cases hs : step s e with
    | error x => rw [hs] at hr; cases hr
    | ok s2 =>
      rw [hs] at hr
      have hg2 := hg.2
      rw [hs] at hg2
      exact ih s2 s1 (hstep s e s2 hI hg.1 hs) hg2 hr

theorem along_true (s : State) (evs : List Event) : along (fun _ _ => true) s evs = true := by
  induction evs generalizing s with
  | nil => rfl
  | cons e es ih =>
    simp only [along, Bool.true_and]
    split
    · exact ih _
    · rfl

theorem run_inv (Inv : State → Prop)
    (hstep : ∀ s e s1, Inv s → step s e = Except.ok s1 → Inv s1)
    (evs : List Event) (s s1 : State) (hI : Inv s) (hr : run s evs = Except.ok s1) : Inv s1 :=
  run_along_inv Inv (fun _ _ => true) (fun s e s1 h _ hs => hstep s e s1 h hs) evs s s1 hI
    (along_true s evs) hr

theorem broadcast_loop_inv (Q : State → Prop)
    (hQ : ∀ s wc, Q s → Q (wchan_wakeone s wc)) (c : CvId) :
    ∀ (fuel : Nat) (s : State) (i : Nat) (s1 : State),
      Q s → cv_broadcast_loop c fuel s i = Except.ok s1 → Q s1 := by
  intro fuel
  induction fuel with
  | zero =>
    intro s i s1 hq h
    simp only [cv_broadcast_loop] at h
    split_ifs at h
    cases h
    exact hq
  | succ n ih =>
    intro s i s1 hq h
    simp only [cv_broadcast_loop] at h
    split_ifs at h
    · split at h
      · exact ih _ _ _ (hQ _ _ hq) h
      · cases h
    · cases h
      exact hq

@[simp]
theorem incs_nil (sem : SemId) : incs [] sem = 0 := rfl

@[simp]
theorem incs_cons (o : Obs) (log : List Obs) (sem : SemId) :
    incs (o :: log) sem = incs log sem + (if is_inc sem o = true then 1 else 0) := by
  simp [incs, List.countP_cons]

@[simp]
theorem incs_append (log1 log2 : List Obs) (sem : SemId) :
    incs (log1 ++ log2) sem = incs log1 sem + incs log2 sem := by
  simp [incs, List.countP_append]

@[simp]
theorem decs_nil (sem : SemId) : decs [] sem = 0 := rfl

@[simp]
theorem decs_cons (o : Obs) (log : List Obs) (sem : SemId) :
    decs (o :: log) sem = decs log sem + (if is_dec sem o = true then 1 else 0) := by
  simp [decs, List.countP_cons]

@[simp]
theorem decs_append (log1 log2 : List Obs) (sem : SemId) :
    decs (log1 ++ log2) sem = decs log1 sem + decs log2 sem := by
  simp [decs, List.countP_append]

theorem SemInv_wakeone (n : Nat) (sem : SemId) (s : State) (wc : Wchan)
    (h : SemInv n sem s) : SemInv n sem (wchan_wakeone s wc) := by
  simpa [SemInv, is_inc, is_dec] using h

theorem SemInv_step (n : Nat) (sem : SemId) (s : State) (e : Event) (s1 : State)
    (hI : SemInv n sem s) (hs : step s e = Except.ok s1) : SemInv n sem s1 := by
  have hF := step_fires s e s1 hs
  cases hF with
  | P_sleep t sem1 _ _ _ => simpa [SemInv, wchan_sleep] using hI
  | P_dec t sem1 _ _ hpos =>
    obtain ⟨h1, h2⟩ := hI
    by_cases hsem : sem1 = sem
    · subst hsem
      simp [SemInv, is_dec, is_inc]
      omega
    · have hne : sem ≠ sem1 := fun h => hsem h.symm
      simp [SemInv, upd_other _ _ _ _ hne, is_dec, is_inc, hsem]
      exact ⟨h1, h2⟩
  | V_inc t sem1 _ _ _ hpos =>
    obtain ⟨h1, h2⟩ := hI
    by_cases hsem : sem1 = sem
    · subst hsem
      have hlt : s.sem_count sem1 + 1 < 2 ^ 32 := by
        by_contra hge
        have : s.sem_count sem1 + 1 = 2 ^ 32 := by omega
        rw [this] at hpos
        simp at hpos
      have hmod : (s.sem_count sem1 + 1) % 2 ^ 32 = s.sem_count sem1 + 1 :=
        Nat.mod_eq_of_lt hlt
      simp [SemInv, is_dec, is_inc, hmod]
      omega
    · have hne : sem ≠ sem1 := fun h => hsem h.symm
      simp [SemInv, upd_other _ _ _ _ hne, is_dec, is_inc, hsem]
      exact ⟨h1, h2⟩
  | acquire_sleep t l k _ _ _ => simpa [SemInv, wchan_sleep] using hI
  | acquire_take t l k _ _ _ => simpa [SemInv, is_inc, is_dec] using hI
  | release t l _ _ _ => simpa [SemInv, is_inc, is_dec] using hI
  | cv_release t c l _ _ _ => simpa [SemInv, is_inc, is_dec] using hI
  | cv_enter t c l _ _ _ _ => simpa [SemInv, wchan_sleep, is_inc, is_dec] using hI
  | cv_leave t c l _ _ _ _ => simpa [SemInv, is_inc, is_dec] using hI
  | signal t c l lk _ _ _ _ _ => exact SemInv_wakeone n sem s _ hI
  | signal_none t c l _ _ _ _ => exact hI
  | broadcast t c l s2 _ _ _ hloop =>
    exact broadcast_loop_inv (SemInv n sem) (fun s wc h => SemInv_wakeone n sem s wc h) c _ _ _ _
      hI hloop


/-! ## The lock invariant -/

@[simp]
theorem holders_nil (l : LockId) : holders [] l = [] := rfl

@[simp]
theorem holders_append (log1 log2 : List Obs) (l : LockId) :
    holders (log1 ++ log2) l = log2.foldl (holders_step l) (holders log1 l) := by
  simp [holders, List.foldl_append]

theorem LockInv_wakeone (l : LockId) (s : State) (wc : Wchan)
    (h : LockInv l s) : LockInv l (wchan_wakeone s wc) := by
  simpa [LockInv, holders_step] using h

theorem LockInv_release (l l1 : LockId) (t : Tid) (s : State) (hI : LockInv l s)
    (hg : l1 = l → t ∈ holders s.log l) :
    LockInv l (wchan_wakeone
        { s with
          lk_thread := upd s.lk_thread l1 none
          log := s.log ++ [Obs.released l1 t] }
        (Wchan.lk l1)) := by
  by_cases hl : l1 = l
  · subst hl
    have hm := hg rfl
    unfold LockInv at hI
    rw [hI] at hm
    cases hlk : s.lk_thread l1 with
    | none => rw [hlk] at hm; simp at hm
    | some t0 =>
      rw [hlk] at hm hI
      simp only [Option.toList, List.mem_singleton] at hm hI
      subst hm
      simp [LockInv, holders_step, hI]
  · have hne : l ≠ l1 := fun h => hl h.symm
    simpa [LockInv, holders_step, hl, upd_other _ _ _ _ hne] using hI

theorem LockInv_step (l : LockId) (s : State) (e : Event) (s1 : State)
    (hI : LockInv l s) (hg : matching_release l s e = true)
    (hs : step s e = Except.ok s1) : LockInv l s1 := by
  have hF := step_fires s e s1 hs
  cases hF with
  | P_sleep t sem1 _ _ _ => simpa [LockInv, wchan_sleep] using hI
  | P_dec t sem1 _ _ hpos => simpa [LockInv, holders_step] using hI
  | V_inc t sem1 _ _ _ hpos => simpa [LockInv, holders_step] using hI
  | acquire_sleep t l1 k _ _ _ => simpa [LockInv, wchan_sleep] using hI
  | acquire_take t l1 k _ _ hfree =>
    by_cases hl : l1 = l
    · subst hl
      unfold LockInv at hI
      rw [hfree] at hI
      simp [LockInv, holders_step, hI]
    · have hne : l ≠ l1 := fun h => hl h.symm
      simpa [LockInv, holders_step, hl, upd_other _ _ _ _ hne] using hI
  | release t l1 he _ _ =>
    subst he
    apply LockInv_release l l1 t s hI
    intro hl
    simpa [matching_release, hl] using hg
  | cv_release t c l1 he _ _ =>
    subst he
    have := LockInv_release l l1 t s hI (by
      intro hl
      simpa [matching_release, hl] using hg)
    simpa [LockInv] using this
  | cv_enter t c l1 _ _ _ _ => simpa [LockInv, wchan_sleep, holders_step] using hI
  | cv_leave t c l1 _ _ _ _ => simpa [LockInv, holders_step] using hI
  | signal t c l1 lk _ _ _ _ _ => exact LockInv_wakeone l s _ hI
  | signal_none t c l1 _ _ _ _ => exact hI
  | broadcast t c l1 s2 _ _ _ hloop =>
    exact broadcast_loop_inv (LockInv l) (fun s wc h => LockInv_wakeone l s wc h) c _ _ _ _
      hI hloop


/-! ## The waiter invariant of a condition variable -/

@[simp]
theorem waiting_nil (c : CvId) : waiting [] c = [] := rfl

@[simp]
theorem waiting_append (log1 log2 : List Obs) (c : CvId) :
    waiting (log1 ++ log2) c = log2.foldl (waiting_step c) (waiting log1 c) := by
  simp [waiting, List.foldl_append]

theorem CvInv_wakeone (c : CvId) (s : State) (wc : Wchan)
    (h : CvInv c s) : CvInv c (wchan_wakeone s wc) := by
  simpa [CvInv, waiting_step] using h

/-- changing the program counter of a thread that neither was nor becomes a
sleeper of `cv_wait` on `c` -/
theorem cv302_upd (pc : Tid → Pc) (t : Tid) (p : Pc) (c : CvId)
    (h1 : ∀ l, pc t ≠ Pc.cv_302 c l) (h2 : ∀ l, p ≠ Pc.cv_302 c l) (t1 : Tid) (l : LockId) :
    upd pc t p t1 = Pc.cv_302 c l ↔ pc t1 = Pc.cv_302 c l := by
  by_cases ht : t1 = t
  · subst ht
    simp [h1, h2]
  · simp [upd_other _ _ _ _ ht]

theorem CvInv_frame (c : CvId) (s s1 : State) (t : Tid) (p : Pc) (hI : CvInv c s)
    (hlog : waiting s1.log c = waiting s.log c)
    (hcount : s1.lockCount c = s.lockCount c) (hlocks : s1.locks c = s.locks c)
    (hpc : s1.pc = upd s.pc t p)
    (h1 : ∀ l, s.pc t ≠ Pc.cv_302 c l) (h2 : ∀ l, p ≠ Pc.cv_302 c l) : CvInv c s1 := by
  obtain ⟨a, b, d, f⟩ := hI
  refine ⟨by rw [hlog, hcount]; exact a, by rw [hcount, hlocks]; exact b, by rw [hlog]; exact d, ?_⟩
  intro t1 l
  rw [hlog, hpc, cv302_upd _ _ _ _ h1 h2]
  exact f t1 l

theorem at_P_not_cv302 {s : State} {e : Event} {t : Tid} {sem : SemId} (h : at_P s e t sem)
    (c : CvId) (l : LockId) : s.pc t ≠ Pc.cv_302 c l := by
  rcases h with ⟨_, h, _⟩ | ⟨_, h⟩ <;> simp [h]

theorem at_acquire_not_cv302 {s : State} {e : Event} {t : Tid} {l1 : LockId} {k : Option CvId}
    (h : at_acquire s e t l1 k) (c : CvId) (l : LockId) : s.pc t ≠ Pc.cv_302 c l := by
  rcases h with ⟨_, h, _⟩ | ⟨_, h⟩ | ⟨_, ⟨c1, h, _⟩, _⟩ <;> simp [h]

theorem CvInv_step (c : CvId) (s : State) (e : Event) (s1 : State)
    (hI : CvInv c s) (hs : step s e = Except.ok s1) : CvInv c s1 := by
  have hF := step_fires s e s1 hs
  cases hF with
  | P_sleep t sem1 hat _ _ =>
    exact CvInv_frame c s _ t (Pc.P_119 sem1) hI rfl rfl rfl rfl
      (fun l => at_P_not_cv302 hat c l) (by simp)
  | P_dec t sem1 hat _ hpos =>
    exact CvInv_frame c s _ t Pc.idle hI (by simp [waiting_step]) rfl rfl rfl
      (fun l => at_P_not_cv302 hat c l) (by simp)
  | V_inc t sem1 _ _ _ hpos => simpa [CvInv, waiting_step] using hI
  | acquire_sleep t l1 k hat _ _ =>
    exact CvInv_frame c s _ t (Pc.acquire_210 l1 k) hI rfl rfl rfl rfl
      (fun l => at_acquire_not_cv302 hat c l) (by simp)
  | acquire_take t l1 k hat _ hfree =>
    exact CvInv_frame c s _ t Pc.idle hI (by simp [waiting_step]) rfl rfl rfl
      (fun l => at_acquire_not_cv302 hat c l) (by simp)
  | release t l1 he _ _ => simpa [CvInv, waiting_step] using hI
  | cv_release t c1 l1 he hidle _ =>
    exact CvInv_frame c s _ t (Pc.cv_296 c1 l1) hI (by simp [waiting_step]) (by simp) (by simp)
      rfl (by simp [hidle]) (by simp)
  | cv_enter t c1 l1 _ hpc _ hlt =>
    by_cases hc : c1 = c
    · subst hc
      obtain ⟨a, b, d, f⟩ := hI
      have hnot : ∀ l, (t, l) ∉ waiting s.log c1 := by
        intro l hm
        have := (f t l).1 hm
        rw [hpc] at this
        cases this
      refine ⟨?_, ?_, ?_, ?_⟩
      · simp [wchan_sleep, waiting_step, a]
      · simp [wchan_sleep]
        omega
      · simp only [wchan_sleep, waiting_append, List.foldl_cons, List.foldl_nil, waiting_step,
          if_true]
        rw [List.nodup_append]
        refine ⟨d, List.nodup_singleton _, ?_⟩
        intro x hx hx2
        simp only [List.mem_singleton] at hx2
        subst hx2
        exact hnot l1 hx
      · intro t1 l
        simp only [wchan_sleep, waiting_append, List.foldl_cons, List.foldl_nil, waiting_step,
          if_true, List.mem_append, List.mem_singleton, Prod.mk.injEq]
        by_cases ht : t1 = t
        · subst ht
          simp only [upd_same, Pc.cv_302.injEq, true_and]
          constructor
          · rintro (h | h)
            · exact absurd h (hnot l)
            · exact h.symm
          · intro h
            exact Or.inr h.symm
        · rw [upd_other _ _ _ _ ht, ← f t1 l]
          simp [ht]
    · have hne : c ≠ c1 := fun h => hc h.symm
      exact CvInv_frame c s _ t (Pc.cv_302 c1 l1) hI (by simp [wchan_sleep, waiting_step, hc])
        (by simp [wchan_sleep, upd_other _ _ _ _ hne])
        (by simp [wchan_sleep, upd_other _ _ _ _ hne]) rfl (by simp [hpc])
        (by intro l h; cases h; exact hc rfl)
  | cv_leave t c1 l1 _ hpc _ hpos =>
    by_cases hc : c1 = c
    · subst hc
      obtain ⟨a, b, d, f⟩ := hI
      have hin : (t, l1) ∈ waiting s.log c1 := (f t l1).2 hpc
      refine ⟨?_, ?_, ?_, ?_⟩
      · simp [waiting_step, List.length_erase_of_mem hin, a]
      · simp
        omega
      · simp only [waiting_append, List.foldl_cons, List.foldl_nil, waiting_step, if_true]
        exact d.erase _
      · intro t1 l
        simp only [waiting_append, List.foldl_cons, List.foldl_nil, waiting_step, if_true]
        rw [d.mem_erase_iff]
        by_cases ht : t1 = t
        · subst ht
          simp only [upd_same]
          constructor
          · rintro ⟨h1, h2⟩
            have := (f t1 l).1 h2
            rw [hpc] at this
            cases this
            exact absurd rfl h1
          · intro h
            cases h
        · rw [upd_other _ _ _ _ ht, ← f t1 l]
          simp [ht]
    · have hne : c ≠ c1 := fun h => hc h.symm
      exact CvInv_frame c s _ t (Pc.cv_310 c1 l1) hI (by simp [waiting_step, hc])
        (by simp [upd_other _ _ _ _ hne]) rfl rfl
        (by intro l h; rw [hpc] at h; cases h; exact hc rfl) (by simp)
  | signal t c1 l1 lk _ _ _ _ _ => exact CvInv_wakeone c s _ hI
  | signal_none t c1 l1 _ _ _ _ => exact hI
  | broadcast t c1 l1 s2 _ _ _ hloop =>
    exact broadcast_loop_inv (CvInv c) (fun s wc h => CvInv_wakeone c s wc h) c1 _ _ _ _
      hI hloop


/-! ## The wait-channel invariant -/

theorem WF_congr (s s1 : State) (h : WF s) (hw : s1.wchan = s.wchan) (ha : s1.asleep = s.asleep)
    (hpc : ∀ u, s.asleep u = true → s1.pc u = s.pc u) : WF s1 := by
  obtain ⟨h1, h2⟩ := h
  refine ⟨by rw [hw]; exact h1, ?_⟩
  intro t wc
  rw [hw, ha, h2 t wc]
  constructor
  · rintro ⟨a, b⟩
    exact ⟨a, by rw [hpc t a]; exact b⟩
  · rintro ⟨a, b⟩
    exact ⟨a, by rw [← hpc t a]; exact b⟩

theorem WF_wakeone (s : State) (wc : Wchan) (h : WF s) : WF (wchan_wakeone s wc) := by
  obtain ⟨h1, h2⟩ := h
  refine ⟨?_, ?_⟩
  · intro wc1
    rw [wakeone_wchan]
    split_ifs
    · exact (h1 wc).sublist (List.tail_sublist _)
    · exact h1 wc1
  · intro t wc1
    rw [wakeone_wchan, wakeone_asleep, wakeone_pc]
    cases hq : s.wchan wc with
    | nil =>
      simp only [List.tail_nil, List.head?_nil]
      by_cases hw : wc1 = wc
      · subst hw
        have := h2 t wc1
        rw [hq] at this
        simpa using this
      · simpa [hw] using h2 t wc1
    | cons u r =>
      have hnd := h1 wc
      rw [hq] at hnd
      have hur : u ∉ r := (List.nodup_cons.1 hnd).1
      simp only [List.tail_cons, List.head?_cons, Option.some.injEq]
      by_cases hu : u = t
      · subst hu
        have hmem : u ∈ s.wchan wc := by rw [hq]; simp
        have hpu := (h2 u wc).1 hmem
        by_cases hw : wc1 = wc
        · simp [hw, hur]
        · simp only [hw, if_false, if_true, Bool.false_eq_true, false_and, iff_false]
          intro hm
          have := (h2 u wc1).1 hm
          rw [hpu.2] at this
          exact hw (Option.some.inj this.2).symm
      · have hne : t ≠ u := fun e => hu e.symm
        simp only [hu, if_false]
        by_cases hw : wc1 = wc
        · subst hw
          simp only [if_true]
          rw [← h2 t wc1, hq]
          simp [hne]
        · simp only [hw, if_false]
          exact h2 t wc1

theorem WF_sleep (s : State) (wc : Wchan) (t : Tid) (p : Pc) (h : WF s)
    (hawake : s.asleep t = false) (hp : parked_on p = some wc) :
    WF (wchan_sleep s wc t p) := by
  obtain ⟨h1, h2⟩ := h
  have hnot : ∀ wc1, t ∉ s.wchan wc1 := by
    intro wc1 hm
    have := ((h2 t wc1).1 hm).1
    rw [hawake] at this
    cases this
  refine ⟨?_, ?_⟩
  · intro wc1
    simp only [wchan_sleep, upd_apply]
    split_ifs with hw
    · rw [List.nodup_append]
      refine ⟨h1 wc, List.nodup_singleton _, ?_⟩
      intro x hx hx2
      simp only [List.mem_singleton] at hx2
      subst hx2
      exact hnot wc hx
    · exact h1 wc1
  · intro t1 wc1
    simp only [wchan_sleep, upd_apply]
    by_cases ht : t1 = t
    · subst ht
      simp only [if_true, hp, Option.some.injEq, true_and]
      split_ifs with hw
      · subst hw
        simp
      · constructor
        · intro hm
          exact absurd hm (hnot wc1)
        · intro e
          exact absurd e.symm hw
    · simp only [ht, if_false]
      split_ifs with hw
      · subst hw
        rw [← h2 t1 wc1]
        simp [ht]
      · exact h2 t1 wc1

theorem WF_step (s : State) (e : Event) (s1 : State)
    (hI : WF s) (hs : step s e = Except.ok s1) : WF s1 := by
  have hF := step_fires s e s1 hs
  cases hF with
  | P_sleep t sem1 hat ha _ => exact WF_sleep s _ t _ hI ha rfl
  | P_dec t sem1 hat ha hpos =>
    refine WF_congr s _ hI rfl rfl ?_
    intro u hu
    have : u ≠ t := by rintro rfl; rw [ha] at hu; cases hu
    simp [upd_other _ _ _ _ this]
  | V_inc t sem1 _ _ _ hpos =>
    exact WF_wakeone _ _ (WF_congr s _ hI rfl rfl (fun _ _ => rfl))
  | acquire_sleep t l1 k hat ha _ => exact WF_sleep s _ t _ hI ha rfl
  | acquire_take t l1 k hat ha hfree =>
    refine WF_congr s _ hI rfl rfl ?_
    intro u hu
    have : u ≠ t := by rintro rfl; rw [ha] at hu; cases hu
    simp [upd_other _ _ _ _ this]
  | release t l1 he _ _ =>
    exact WF_wakeone _ _ (WF_congr s _ hI rfl rfl (fun _ _ => rfl))
  | cv_release t c1 l1 he hidle ha =>
    have h1 : WF (wchan_wakeone
        { s with
          lk_thread := upd s.lk_thread l1 none
          log := s.log ++ [Obs.released l1 t] }
        (Wchan.lk l1)) :=
      WF_wakeone _ _ (WF_congr s _ hI rfl rfl (fun _ _ => rfl))
    refine WF_congr _ _ h1 rfl rfl ?_
    intro u hu
    have : u ≠ t := by
      rintro rfl
      rw [wakeone_asleep] at hu
      simp [ha] at hu
    simp [upd_other _ _ _ _ this]
  | cv_enter t c1 l1 _ hpc ha hlt =>
    exact WF_sleep _ _ t _ (WF_congr s _ hI rfl rfl (fun _ _ => rfl)) ha rfl
  | cv_leave t c1 l1 _ hpc ha hpos =>
    refine WF_congr s _ hI rfl rfl ?_
    intro u hu
    have : u ≠ t := by rintro rfl; rw [ha] at hu; cases hu
    simp [upd_other _ _ _ _ this]
  | signal t c1 l1 lk _ _ _ _ _ => exact WF_wakeone s _ hI
  | signal_none t c1 l1 _ _ _ _ => exact hI
  | broadcast t c1 l1 s2 _ _ _ hloop =>
    exact broadcast_loop_inv WF (fun s wc h => WF_wakeone s wc h) c1 _ _ _ _ hI hloop

theorem WF_initial (s : State) (h : Initial s) : WF s := by
  refine ⟨?_, ?_⟩
  · intro wc; rw [h.wchan]; exact List.nodup_nil
  · intro t wc
    rw [h.wchan, h.asleep]
    simp

/-! ## Wake-ups, broadcasts and creation -/

@[simp]
theorem wake_each_nil (s : State) : wake_each s [] = s := rfl

@[simp]
theorem wake_each_cons (s : State) (lk : LockId) (ls : List LockId) :
    wake_each s (lk :: ls) = wake_each (wchan_wakeone s (Wchan.lk lk)) ls := rfl

@[simp]
theorem wake_each_locks (s : State) (ls : List LockId) :
    (wake_each s ls).locks = s.locks := by
  induction ls generalizing s with
  | nil => rfl
  | cons lk ls ih => simp [ih]

@[simp]
theorem wake_each_lockCount (s : State) (ls : List LockId) :
    (wake_each s ls).lockCount = s.lockCount := by
  induction ls generalizing s with
  | nil => rfl
  | cons lk ls ih => simp [ih]

@[simp]
theorem wake_each_pc (s : State) (ls : List LockId) :
    (wake_each s ls).pc = s.pc := by
  induction ls generalizing s with
  | nil => rfl
  | cons lk ls ih => simp [ih]

theorem broadcast_loop_eq (c : CvId) :
    ∀ (fuel : Nat) (s : State) (i : Nat),
      s.lockCount c - i ≤ fuel → s.lockCount c ≤ (s.locks c).length →
      cv_broadcast_loop c fuel s i =
        Except.ok (wake_each s (((s.locks c).take (s.lockCount c)).drop i)) := by
  intro fuel
  induction fuel with
  | zero =>
    intro s i hf hb
    have hi : ¬ i < s.lockCount c := by omega
    simp only [cv_broadcast_loop, if_neg hi]
    rw [List.drop_eq_nil_of_le (by simp; omega)]
    rfl
  | succ n ih =>
    intro s i hf hb
    simp only [cv_broadcast_loop]
    split_ifs with hi
    · have hlen : i < (s.locks c).length := by omega
      have hlen2 : i < ((s.locks c).take (s.lockCount c)).length := by simp; omega
      rw [List.get?_eq_getElem?, List.getElem?_eq_getElem hlen]
      simp only
      rw [ih _ _ (by simp; omega) (by simpa using hb)]
      rw [List.drop_eq_getElem_cons hlen2]
      simp
    · rw [List.drop_eq_nil_of_le (by simp; omega)]
      rfl

theorem broadcast_loop_fuel (c : CvId) :
    ∀ (fuel : Nat) (s : State) (i : Nat),
      s.lockCount c - i ≤ fuel →
      cv_broadcast_loop c fuel s i ≠ Except.error Stop.out_of_fuel := by
  intro fuel
  induction fuel with
  | zero =>
    intro s i hf
    have hi : ¬ i < s.lockCount c := by omega
    simp [cv_broadcast_loop, hi]
  | succ n ih =>
    intro s i hf
    simp only [cv_broadcast_loop]
    split_ifs with hi
    · split
      · exact ih _ _ (by simp; omega)
      · simp
    · simp

theorem cv_broadcast_fuel (s : State) (c : CvId) (l : LockId) :
    cv_broadcast s c l ≠ Except.error Stop.out_of_fuel :=
  broadcast_loop_fuel c _ s 0 (by omega)

theorem cv_broadcast_eq (s : State) (c : CvId) (l : LockId)
    (hb : s.lockCount c ≤ (s.locks c).length) :
    cv_broadcast s c l = Except.ok (wake_each s ((s.locks c).take (s.lockCount c))) := by
  unfold cv_broadcast
  rw [broadcast_loop_eq c _ s 0 (by omega) hb]
  simp

theorem wakeone_stays_awake (s : State) (wc : Wchan) (t : Tid) (h : s.asleep t = false) :
    (wchan_wakeone s wc).asleep t = false := by
  rw [wakeone_asleep]
  split_ifs <;> simp [h]

theorem wake_each_stays_awake (s : State) (ls : List LockId) (t : Tid)
    (h : s.asleep t = false) : (wake_each s ls).asleep t = false := by
  induction ls generalizing s with
  | nil => exact h
  | cons lk ls ih => exact ih _ (wakeone_stays_awake s _ t h)

theorem wakeone_head (s : State) (wc : Wchan) (t : Tid) (h : (s.wchan wc).head? = some t) :
    (wchan_wakeone s wc).asleep t = false := by
  rw [wakeone_asleep]
  simp [h]

theorem wake_each_head (s : State) (ls : List LockId) (l : LockId) (t : Tid)
    (h : (s.wchan (Wchan.lk l)).head? = some t) (hl : l ∈ ls) :
    (wake_each s ls).asleep t = false := by
  induction ls generalizing s with
  | nil => simp at hl
  | cons lk ls ih =>
    simp only [wake_each_cons]
    by_cases hlk : lk = l
    · subst hlk
      exact wake_each_stays_awake _ _ t (wakeone_head s _ t h)
    · have hl2 : l ∈ ls := by
        rcases List.mem_cons.1 hl with h1 | h1
        · exact absurd h1.symm hlk
        · exact h1
      apply ih _ _ hl2
      rw [wakeone_wchan]
      have : Wchan.lk l ≠ Wchan.lk lk := by
        intro e; cases e; exact hlk rfl
      simp [this, h]

theorem Initial_CvInv (s : State) (h : Initial s) (c : CvId) : CvInv c s := by
  simp [CvInv, h.log, h.lockCount, h.pc]

theorem only_sleeper (s : State) (hW : WF s) (T : Tid) (wc : Wchan)
    (hT : s.asleep T = true) (hpark : parked_on (s.pc T) = some wc)
    (honly : ∀ v, s.asleep v = true → parked_on (s.pc v) = some wc → v = T) :
    s.wchan wc = [T] := by
  obtain ⟨hnd, hmem⟩ := hW
  have hin : T ∈ s.wchan wc := (hmem T wc).2 ⟨hT, hpark⟩
  have hall : ∀ v ∈ s.wchan wc, v = T := by
    intro v hv
    have := (hmem v wc).1 hv
    exact honly v this.1 this.2
  cases hq : s.wchan wc with
  | nil => rw [hq] at hin; simp at hin
  | cons a r =>
    rw [hq] at hall hin
    have hnd2 := hnd wc
    rw [hq] at hnd2
    have ha : a = T := hall a (by simp)
    subst ha
    cases r with
    | nil => rfl
    | cons b r2 =>
      have hb : b = a := hall b (by simp)
      subst hb
      simp at hnd2

theorem step_V (s : State) (u : Tid) (sem : SemId) (hidle : s.pc u = Pc.idle)
    (hawake : s.asleep u = false) (hno : s.sem_count sem + 1 < 2 ^ 32) :
    step s (Event.call u (Op.V sem)) =
      Except.ok (wchan_wakeone
        { s with
          sem_count := upd s.sem_count sem (s.sem_count sem + 1)
          log := s.log ++ [Obs.inc sem u] } (Wchan.sem sem)) := by
  have hmod : (s.sem_count sem + 1) % 2 ^ 32 = s.sem_count sem + 1 := Nat.mod_eq_of_lt hno
  simp only [step, hidle, hawake, and_self, if_true, V, upd_same, hmod]
  rw [if_neg (by omega)]

theorem step_release (s : State) (u : Tid) (l : LockId) (hidle : s.pc u = Pc.idle)
    (hawake : s.asleep u = false) :
    step s (Event.call u (Op.lock_release l)) =
      Except.ok (wchan_wakeone
        { s with
          lk_thread := upd s.lk_thread l none
          log := s.log ++ [Obs.released l u] } (Wchan.lk l)) := by
  simp only [step, hidle, hawake, and_self, if_true, lock_release, upd_same]
  rw [if_neg (by simp)]

theorem step_signal (s : State) (u : Tid) (c : CvId) (l1 l : LockId) (hidle : s.pc u = Pc.idle)
    (hawake : s.asleep u = false) (hpos : 0 < s.lockCount c)
    (hget : (s.locks c).get? (s.lockCount c - 1) = some l) :
    step s (Event.call u (Op.cv_signal c l1)) = Except.ok (wchan_wakeone s (Wchan.lk l)) := by
  simp only [step, hidle, hawake, and_self, if_true, cv_signal, hpos, hget]

theorem step_broadcast (s : State) (u : Tid) (c : CvId) (l1 : LockId) (hidle : s.pc u = Pc.idle)
    (hawake : s.asleep u = false) (hb : s.lockCount c ≤ (s.locks c).length) :
    step s (Event.call u (Op.cv_broadcast c l1)) =
      Except.ok (wake_each s ((s.locks c).take (s.lockCount c))) := by
  simp only [step, hidle, hawake, and_self, if_true]
  exact cv_broadcast_eq s c l1 hb

theorem wake_each_same (l0 : LockId) :
    ∀ (ls : List LockId) (s : State), (∀ lk ∈ ls, lk = l0) →
      (wake_each s ls).wchan (Wchan.lk l0) = (s.wchan (Wchan.lk l0)).drop ls.length ∧
      (wake_each s ls).log =
        s.log ++
          (((s.wchan (Wchan.lk l0)).take ls.length).map
              (fun u => Obs.wakeone (Wchan.lk l0) (some u)) ++
            List.replicate (ls.length - (s.wchan (Wchan.lk l0)).length)
              (Obs.wakeone (Wchan.lk l0) none)) ∧
      (∀ u, (wake_each s ls).asleep u =
        if u ∈ (s.wchan (Wchan.lk l0)).take ls.length then false else s.asleep u) := by
  intro ls
  induction ls with
  | nil =>
    intro s _
    simp
  | cons lk rest ih =>
    intro s hall
    have hlk : lk = l0 := hall lk (by simp)
    subst hlk
    have hrest : ∀ x ∈ rest, x = lk := fun x hx => hall x (by simp [hx])
    obtain ⟨h1, h2, h3⟩ := ih (wchan_wakeone s (Wchan.lk lk)) hrest
    simp only [wake_each_cons, List.length_cons]
    rw [h1, h2]
    simp only [wakeone_wchan, if_true, wakeone_log]
    cases hq : s.wchan (Wchan.lk lk) with
    | nil =>
      refine ⟨by simp, ?_, ?_⟩
      · simp [List.replicate_succ]
      · intro u
        rw [h3, wakeone_wchan, wakeone_asleep, hq]
        simp
    | cons a r =>
      refine ⟨by simp, ?_, ?_⟩
      · simp
      · intro u
        rw [h3, wakeone_wchan, wakeone_asleep, hq]
        simp only [if_true, List.tail_cons, List.head?_cons, Option.some.injEq,
          List.take_succ_cons, List.mem_cons]
        by_cases hu : u = a
        · subst hu; simp
        · have hne : ¬ a = u := fun e => hu e.symm
          simp [hu, hne]

theorem CvSame_wakeone (c : CvId) (l0 : LockId) (s : State) (wc : Wchan)
    (h : CvSame c l0 s) : CvSame c l0 (wchan_wakeone s wc) := by
  simpa [CvSame, waiting_step] using h

theorem CvSame_frame (c : CvId) (l0 : LockId) (s s1 : State) (t : Tid) (p : Pc)
    (hI : CvSame c l0 s)
    (hlog : waiting s1.log c = waiting s.log c)
    (hcount : s1.lockCount c = s.lockCount c) (hlocks : s1.locks c = s.locks c)
    (hpc : s1.pc = upd s.pc t p)
    (h2 : ∀ l, p = Pc.cv_296 c l → l = l0) : CvSame c l0 s1 := by
  obtain ⟨a, b, d⟩ := hI
  refine ⟨by rw [hcount, hlocks]; exact a, ?_, by rw [hlog]; exact d⟩
  intro t1 l
  rw [hpc]
  by_cases ht : t1 = t
  · subst ht
    simpa using h2 l
  · rw [upd_other _ _ _ _ ht]
    exact b t1 l

theorem CvSame_step (c : CvId) (l0 : LockId) (s : State) (e : Event) (s1 : State)
    (hI : CvInv c s ∧ CvSame c l0 s) (hg : waits_with c l0 s e = true)
    (hs : step s e = Except.ok s1) : CvInv c s1 ∧ CvSame c l0 s1 := by
  refine ⟨CvInv_step c s e s1 hI.1 hs, ?_⟩
  obtain ⟨hinv, hI⟩ := hI
  have hF := step_fires s e s1 hs
  cases hF with
  | P_sleep t sem1 hat _ _ =>
    exact CvSame_frame c l0 s _ t (Pc.P_119 sem1) hI rfl rfl rfl rfl (by simp)
  | P_dec t sem1 hat _ hpos =>
    exact CvSame_frame c l0 s _ t Pc.idle hI (by simp [waiting_step]) rfl rfl rfl (by simp)
  | V_inc t sem1 _ _ _ hpos => simpa [CvSame, waiting_step] using hI
  | acquire_sleep t l1 k hat _ _ =>
    exact CvSame_frame c l0 s _ t (Pc.acquire_210 l1 k) hI rfl rfl rfl rfl (by simp)
  | acquire_take t l1 k hat _ hfree =>
    exact CvSame_frame c l0 s _ t Pc.idle hI (by simp [waiting_step]) rfl rfl rfl (by simp)
  | release t l1 he _ _ => simpa [CvSame, waiting_step] using hI
  | cv_release t c1 l1 he hidle _ =>
    subst he
    refine CvSame_frame c l0 s _ t (Pc.cv_296 c1 l1) hI (by simp [waiting_step]) (by simp)
      (by simp) rfl ?_
    intro l h
    cases h
    simpa [waits_with] using hg
  | cv_enter t c1 l1 _ hpc _ hlt =>
    by_cases hc : c1 = c
    · subst hc
      obtain ⟨a, b, d⟩ := hI
      have hl : l1 = l0 := b t l1 hpc
      subst hl
      refine ⟨?_, ?_, ?_⟩
      · intro i hi
        simp only [wchan_sleep, upd_same] at hi ⊢
        rw [List.get?_eq_getElem?]
        by_cases h1 : s.lockCount c1 = i
        · rw [← h1, List.getElem?_set_self hlt]
        · rw [List.getElem?_set_ne h1]
          have := a i (by omega)
          rwa [List.get?_eq_getElem?] at this
      · intro t1 l
        simp only [wchan_sleep]
        by_cases ht : t1 = t
        · subst ht; simp
        · rw [upd_other _ _ _ _ ht]; exact b t1 l
      · intro p hp
        simp only [wchan_sleep, waiting_append, List.foldl_cons, List.foldl_nil, waiting_step,
          if_true, List.mem_append, List.mem_singleton] at hp
        rcases hp with hp | hp
        · exact d p hp
        · subst hp; rfl
    · have hne : c ≠ c1 := fun h => hc h.symm
      exact CvSame_frame c l0 s _ t (Pc.cv_302 c1 l1) hI (by simp [wchan_sleep, waiting_step, hc])
        (by simp [wchan_sleep, upd_other _ _ _ _ hne])
        (by simp [wchan_sleep, upd_other _ _ _ _ hne]) rfl (by simp)
  | cv_leave t c1 l1 _ hpc _ hpos =>
    by_cases hc : c1 = c
    · subst hc
      obtain ⟨a, b, d⟩ := hI
      refine ⟨?_, ?_, ?_⟩
      · intro i hi
        simp only [upd_same] at hi ⊢
        exact a i (by omega)
      · intro t1 l
        simp only
        by_cases ht : t1 = t
        · subst ht; simp
        · rw [upd_other _ _ _ _ ht]; exact b t1 l
      · intro p hp
        simp only [waiting_append, List.foldl_cons, List.foldl_nil, waiting_step,
          if_true] at hp
        exact d p (List.mem_of_mem_erase hp)
    · have hne : c ≠ c1 := fun h => hc h.symm
      exact CvSame_frame c l0 s _ t (Pc.cv_310 c1 l1) hI (by simp [waiting_step, hc])
        (by simp [upd_other _ _ _ _ hne]) rfl rfl (by simp)
  | signal t c1 l1 lk _ _ _ _ _ => exact CvSame_wakeone c l0 s _ hI
  | signal_none t c1 l1 _ _ _ _ => exact hI
  | broadcast t c1 l1 s2 _ _ _ hloop =>
    exact broadcast_loop_inv (CvSame c l0) (fun s wc h => CvSame_wakeone c l0 s wc h) c1 _ _ _ _
      hI hloop

theorem CvSame_entries (c : CvId) (l0 : LockId) (s : State) (hI : CvInv c s)
    (hS : CvSame c l0 s) :
    (s.locks c).take (s.lockCount c) = (waiting s.log c).map Prod.snd := by
  obtain ⟨a, b, _, _⟩ := hI
  obtain ⟨e, _, g⟩ := hS
  have h1 : (s.locks c).take (s.lockCount c) = List.replicate (s.lockCount c) l0 := by
    rw [List.eq_replicate_iff]
    refine ⟨by simp [b], ?_⟩
    intro x hx
    obtain ⟨i, hi, rfl⟩ := List.getElem_of_mem hx
    simp only [List.length_take, lt_min_iff] at hi
    have := e i hi.1
    rw [List.get?_eq_getElem?, List.getElem?_eq_getElem hi.2] at this
    simpa using this
  have h2 : (waiting s.log c).map Prod.snd = List.replicate (s.lockCount c) l0 := by
    rw [List.eq_replicate_iff]
    refine ⟨by simp [a], ?_⟩
    intro x hx
    rw [List.mem_map] at hx
    obtain ⟨p, hp, rfl⟩ := hx
    exact g p hp
  rw [h1, h2]

theorem Initial_blank : Initial blank :=
  ⟨rfl, fun _ => rfl, fun _ => rfl, fun _ => rfl, fun _ => rfl, fun _ => rfl,
    fun _ => by simp [blank]⟩

theorem sem_create_ok (s : State) (sem : SemId) (n : Nat) :
    sem_create s (some sem) true true n =
      (some sem,
        { s with
          wchan := upd s.wchan (Wchan.sem sem) []
          sem_count := upd s.sem_count sem (n % 2 ^ 32) }) := rfl

theorem lock_create_ok (s : State) (l : LockId) :
    lock_create s (some l) true true =
      (some l,
        { s with
          wchan := upd s.wchan (Wchan.lk l) []
          lk_thread := upd s.lk_thread l none }) := rfl

theorem cv_create_ok (s : State) (c : CvId) (arr : List LockId) :
    cv_create s (some c) true arr =
      (some c,
        { s with
          locks := upd s.locks c arr
          lockCount := upd s.lockCount c 0 }) := rfl

theorem Initial_sem_create (s : State) (h : Initial s) (sem : SemId) (n : Nat) :
    Initial (sem_create s (some sem) true true n).2 := by
  rw [sem_create_ok]
  refine ⟨h.log, h.pc, h.asleep, ?_, h.lk_thread, h.lockCount, ?_⟩
  · intro wc
    simp only [upd_apply]
    split_ifs
    · rfl
    · exact h.wchan wc
  · intro sem1
    simp only [upd_apply]
    split_ifs
    · exact Nat.mod_lt _ (by norm_num)
    · exact h.sem_count sem1

theorem Initial_lock_create (s : State) (h : Initial s) (l : LockId) :
    Initial (lock_create s (some l) true true).2 := by
  rw [lock_create_ok]
  refine ⟨h.log, h.pc, h.asleep, ?_, ?_, h.lockCount, h.sem_count⟩
  · intro wc
    simp only [upd_apply]
    split_ifs
    · rfl
    · exact h.wchan wc
  · intro l1
    simp only [upd_apply]
    split_ifs
    · rfl
    · exact h.lk_thread l1

theorem Initial_cv_create (s : State) (h : Initial s) (c : CvId) (arr : List LockId) :
    Initial (cv_create s (some c) true arr).2 := by
  rw [cv_create_ok]
  refine ⟨h.log, h.pc, h.asleep, h.wchan, h.lk_thread, ?_, h.sem_count⟩
  intro c1
  simp only [upd_apply]
  split_ifs
  · rfl
  · exact h.lockCount c1

theorem Initial_demo : Initial demo :=
  Initial_cv_create _ (Initial_lock_create _ (Initial_sem_create _ Initial_blank 0 0) 0) 0 _

theorem sleepers_in_queue (s0 : State) (hinit : Initial s0) (evs : List Event) (s : State)
    (hrun : run s0 evs = Except.ok s) (u : Tid) (wc : Wchan)
    (hu : s.asleep u = true) (hp : parked_on (s.pc u) = some wc) : u ∈ s.wchan wc := by
  have hW : WF s :=
    run_inv WF (fun s e s1 h hs => WF_step s e s1 h hs) evs s0 s (WF_initial s0 hinit) hrun
  exact (hW.2 u wc).2 ⟨hu, hp⟩

theorem in_lock_acquire_parked {l : LockId} {p : Pc} (h : in_lock_acquire l p = true) :
    parked_on p = some (Wchan.lk l) := by
  cases p <;> simp_all [in_lock_acquire, parked_on]

theorem parked_on_sem (p : Pc) (sem : SemId) :
    parked_on p = some (Wchan.sem sem) ↔ p = Pc.P_119 sem := by
  cases p <;> simp [parked_on]

theorem parked_on_lk (p : Pc) (l : LockId) :
    parked_on p = some (Wchan.lk l) ↔
      ((∃ k, p = Pc.acquire_210 l k) ∨ ∃ c, p = Pc.cv_302 c l) := by
  cases p <;> simp [parked_on]

theorem dec_needs_positive (sem : SemId) (s : State) (e : Event) (s1 : State)
    (hs : step s e = Except.ok s1) (hd : decs s.log sem < decs s1.log sem) :
    0 < s.sem_count sem ∧ s1.sem_count sem = s.sem_count sem - 1 ∧
      decs s1.log sem = decs s.log sem + 1 := by
  have hF := step_fires s e s1 hs
  cases hF with
  | P_sleep t sem1 _ _ _ => simp [wchan_sleep] at hd
  | P_dec t sem1 _ _ hpos =>
    by_cases hsem : sem1 = sem
    · subst hsem
      simp [is_dec, hpos]
    · simp [is_dec, hsem] at hd
  | V_inc t sem1 _ _ _ hpos => simp [is_dec] at hd
  | acquire_sleep t l k _ _ _ => simp [wchan_sleep] at hd
  | acquire_take t l k _ _ _ => simp [is_dec] at hd
  | release t l _ _ _ => simp [is_dec] at hd
  | cv_release t c l _ _ _ => simp [is_dec] at hd
  | cv_enter t c l _ _ _ _ => simp [wchan_sleep, is_dec] at hd
  | cv_leave t c l _ _ _ _ => simp [is_dec] at hd
  | signal t c l lk _ _ _ _ _ => simp [is_dec] at hd
  | signal_none t c l _ _ _ _ => simp at hd
  | broadcast t c l s2 _ _ _ hloop =>
    have := broadcast_loop_inv (fun x => decs x.log sem = decs s.log sem)
      (fun x wc h => by simpa [is_dec] using h) c _ _ _ _ rfl hloop
    simp only at this
    omega

theorem in_cv_wait_not_idle {c : CvId} {l : LockId} {p : Pc} (h : in_cv_wait c l p = true) :
    p ≠ Pc.idle := by
  rintro rfl
  simp [in_cv_wait] at h

theorem return_from_cv_wait (s : State) (e : Event) (s1 : State) (c : CvId) (l : LockId)
    (t : Tid) (hs : step s e = Except.ok s1) (hin : in_cv_wait c l (s.pc t) = true)
    (hret : s1.pc t = Pc.idle) :
    e = Event.resume t ∧ s.lk_thread l = none ∧ s1.lk_thread l = some t := by
  have hne := in_cv_wait_not_idle hin
  have hF := step_fires s e s1 hs
  cases hF with
  | P_sleep t1 sem1 _ _ _ =>
    exfalso
    by_cases ht : t = t1
    · subst ht; simp [wchan_sleep] at hret
    · simp [wchan_sleep, upd_other _ _ _ _ ht] at hret; exact hne hret
  | P_dec t1 sem1 hat _ hpos =>
    exfalso
    by_cases ht : t = t1
    · subst ht
      rcases hat with ⟨_, h, _⟩ | ⟨_, h⟩ <;> simp [h, in_cv_wait] at hin
    · simp [upd_other _ _ _ _ ht] at hret; exact hne hret
  | V_inc t1 sem1 _ _ _ hpos => exfalso; simp at hret; exact hne hret
  | acquire_sleep t1 l1 k _ _ _ =>
    exfalso
    by_cases ht : t = t1
    · subst ht; simp [wchan_sleep] at hret
    · simp [wchan_sleep, upd_other _ _ _ _ ht] at hret; exact hne hret
  | acquire_take t1 l1 k hat _ hfree =>
    by_cases ht : t = t1
    · subst ht
      rcases hat with ⟨_, h, _⟩ | ⟨he, h⟩ | ⟨he, ⟨c1, h, _⟩, _⟩
      · simp [h, in_cv_wait] at hin
      · rw [h] at hin
        cases k with
        | none => simp [in_cv_wait] at hin
        | some c1 =>
          simp only [in_cv_wait, decide_eq_true_eq] at hin
          obtain ⟨_, hl⟩ := hin
          subst hl
          exact ⟨he, hfree, by simp⟩
      · rw [h] at hin
        simp only [in_cv_wait, decide_eq_true_eq] at hin
        obtain ⟨_, hl⟩ := hin
        subst hl
        exact ⟨he, hfree, by simp⟩
    · exfalso; simp [upd_other _ _ _ _ ht] at hret; exact hne hret
  | release t1 l1 _ _ _ => exfalso; simp at hret; exact hne hret
  | cv_release t1 c1 l1 _ _ _ =>
    exfalso
    by_cases ht : t = t1
    · subst ht; simp at hret
    · simp [upd_other _ _ _ _ ht] at hret; exact hne hret
  | cv_enter t1 c1 l1 _ _ _ _ =>
    exfalso
    by_cases ht : t = t1
    · subst ht; simp [wchan_sleep] at hret
    · simp [wchan_sleep, upd_other _ _ _ _ ht] at hret; exact hne hret
  | cv_leave t1 c1 l1 _ _ _ _ =>
    exfalso
    by_cases ht : t = t1
    · subst ht; simp at hret
    · simp [upd_other _ _ _ _ ht] at hret; exact hne hret
  | signal t1 c1 l1 lk _ _ _ _ _ => exfalso; simp at hret; exact hne hret
  | signal_none t1 c1 l1 _ _ _ _ => exact absurd hret hne
  | broadcast t1 c1 l1 s2 _ _ _ hloop =>
    exfalso
    have := broadcast_loop_inv (fun x => x.pc = s.pc) (fun x wc h => by simpa using h) c1 _ _ _ _
      rfl hloop
    simp only at this
    rw [this] at hret
    exact hne hret

/-! ## The properties -/

/-- C1 (semaphore conservation).  A semaphore is created by `sem_create` with
initial count `n`; then any interleaving of calls runs without a fatal
assertion (so no `V` has overflowed the counter).  In the state reached, the
number of completed decrements is at most `n` plus the number of completed
increments, `sem_count` is `n` plus the increments minus the decrements, and a
transition that performs one more decrement starts from `sem_count > 0` and
takes exactly one off. -/
theorem sem_conservation (s0 : State) (sem : SemId) (n : Nat) (hn : n < 2 ^ 32)
    (hlog : s0.log = []) (evs : List Event) (s : State)
    (hrun : run (sem_create s0 (some sem) true true n).2 evs = Except.ok s) :
    decs s.log sem ≤ n + incs s.log sem ∧
    s.sem_count sem + decs s.log sem = n + incs s.log sem ∧
    (∀ e s1, step s e = Except.ok s1 → decs s.log sem < decs s1.log sem →
      0 < s.sem_count sem ∧ s1.sem_count sem = s.sem_count sem - 1 ∧
        decs s1.log sem = decs s.log sem + 1) := by
  have h0 : SemInv n sem (sem_create s0 (some sem) true true n).2 := by
    simp [SemInv, sem_create, hlog, Nat.mod_eq_of_lt hn]
    omega
  have hI : SemInv n sem s :=
    run_inv (SemInv n sem) (fun s e s1 h hs => SemInv_step n sem s e s1 h hs) evs _ s h0 hrun
  refine ⟨?_, hI.1, ?_⟩
  · have := hI.1
    omega
  · intro e s1 hs hd
    exact dec_needs_positive sem s e s1 hs hd

/-- Instance of C1: a semaphore of count 1, two `P` calls of which the second
sleeps, a `V`, and the sleeper completing its `P`. -/
theorem sem_conservation_witness :
    ∃ s, run (sem_create blank (some 0) true true 1).2
        [Event.call 1 (Op.P 0), Event.call 2 (Op.P 0), Event.call 3 (Op.V 0), Event.resume 2]
        = Except.ok s ∧
      s.asleep 2 = false ∧ s.pc 2 = Pc.idle ∧ decs s.log 0 = 2 ∧ incs s.log 0 = 1 ∧
      decs s.log 0 ≤ 1 + incs s.log 0 ∧ s.sem_count 0 + decs s.log 0 = 1 + incs s.log 0 :=
  have h := sem_conservation blank 0 1 (by norm_num) rfl
    [Event.call 1 (Op.P 0), Event.call 2 (Op.P 0), Event.call 3 (Op.V 0), Event.resume 2]
    (after (sem_create blank (some 0) true true 1).2
      [Event.call 1 (Op.P 0), Event.call 2 (Op.P 0), Event.call 3 (Op.V 0), Event.resume 2]) rfl
  ⟨_, rfl, by decide, by decide, by decide, by decide, h.1, h.2.1⟩

/-- C2 (lock mutual exclusion).  A lock is created by `lock_create`; then any
interleaving runs in which every release of the lock (by `lock_release` or by
the `lock_release` inside `cv_wait`) is made by a thread that has completed a
`lock_acquire` on it and not released it since.  In the state reached at most
one thread is inside its acquire-release window, `lk_thread` is that thread
(`NULL` when there is none), and `lock_do_i_hold`, with a CPU present, is true
for a thread exactly when it is that thread. -/
theorem lock_mutual_exclusion (s0 : State) (l : LockId) (hlog : s0.log = [])
    (evs : List Event) (s : State)
    (hd : along (matching_release l) (lock_create s0 (some l) true true).2 evs = true)
    (hrun : run (lock_create s0 (some l) true true).2 evs = Except.ok s) :
    (holders s.log l).length ≤ 1 ∧
    s.lk_thread l = (holders s.log l).head? ∧
    (∀ t, lock_do_i_hold true s t l = true ↔ holders s.log l = [t]) := by
  have h0 : LockInv l (lock_create s0 (some l) true true).2 := by
    simp [LockInv, lock_create, hlog]
  have hI : LockInv l s :=
    run_along_inv (LockInv l) (matching_release l)
      (fun s e s1 h hg hs => LockInv_step l s e s1 h hg hs) evs _ s h0 hd hrun
  unfold LockInv at hI
  rw [hI]
  cases hlk : s.lk_thread l with
  | none => simp [lock_do_i_hold, hlk]
  | some t0 =>
    simp [lock_do_i_hold, hlk]

/-- Instance of C2: thread 1 takes the lock, thread 2 asks for it and sleeps,
thread 1 releases, thread 2 wakes and takes it. -/
theorem lock_mutual_exclusion_witness :
    ∃ s, run (lock_create blank (some 0) true true).2
        [Event.call 1 (Op.lock_acquire 0), Event.call 2 (Op.lock_acquire 0),
          Event.call 1 (Op.lock_release 0), Event.resume 2] = Except.ok s ∧
      holders s.log 0 = [2] ∧
      (holders s.log 0).length ≤ 1 ∧ s.lk_thread 0 = (holders s.log 0).head? ∧
      (∀ t, lock_do_i_hold true s t 0 = true ↔ holders s.log 0 = [t]) :=
  have h := lock_mutual_exclusion blank 0 rfl
    [Event.call 1 (Op.lock_acquire 0), Event.call 2 (Op.lock_acquire 0),
      Event.call 1 (Op.lock_release 0), Event.resume 2] _ (by decide) rfl
  ⟨_, rfl, by decide, h⟩

/-- C3 fails as stated.  Thread 3 is the only thread blocked in `lock_acquire` on
lock 0, and is parked behind thread 1, which sleeps in `cv_wait` on the same
wait channel.  The matching `lock_release` by the owner, thread 2, wakes
thread 1: thread 3 is still asleep although the lock is free. -/
theorem release_wakes_cv_waiter_not_acquirer :
    ∃ s s1,
      run demo acquirer_behind_waiter = Except.ok s ∧
      step s (Event.call 2 (Op.lock_release 0)) = Except.ok s1 ∧
      s.lk_thread 0 = some 2 ∧
      s.asleep 3 = true ∧ s.pc 3 = Pc.acquire_210 0 none ∧
      (∀ u, s.asleep u = true → in_lock_acquire 0 (s.pc u) = true → u = 3) ∧
      s.wchan (Wchan.lk 0) = [1, 3] ∧ s.pc 1 = Pc.cv_302 0 0 ∧
      s1.lk_thread 0 = none ∧ s1.asleep 3 = true ∧ s1.wchan (Wchan.lk 0) = [3] ∧
      s1.asleep 1 = false := by
  refine ⟨after demo acquirer_behind_waiter,
      after demo (acquirer_behind_waiter ++ [Event.call 2 (Op.lock_release 0)]),
      rfl, rfl, by decide, by decide, by decide, ?_, by decide, by decide, by decide,
    by decide, by decide, by decide⟩
  intro u hu hp
  have hm := sleepers_in_queue demo Initial_demo acquirer_behind_waiter
    (after demo acquirer_behind_waiter) rfl u (Wchan.lk 0) hu (in_lock_acquire_parked hp)
  have hq : (after demo acquirer_behind_waiter).wchan (Wchan.lk 0) = [1, 3] := by decide
  rw [hq] at hm
  simp only [List.mem_cons, List.mem_singleton, List.not_mem_nil, or_false] at hm
  rcases hm with rfl | rfl
  · exact absurd hp (by decide)
  · rfl

/-- C3 as amended.  In every state reachable from an initial state: the queue
of a semaphore's wait channel holds exactly the threads asleep in `P` on it,
and the queue of a lock's wait channel holds exactly the threads asleep in
`lock_acquire` on it or in `cv_wait` with it.  For a thread `T` asleep on the
wait channel `wc`: if `T` is the only thread asleep on `wc` the queue of `wc`
is `[T]`; and whenever `T` is at the head of the queue, `T` is made runnable by
a `V` on the semaphore owning `wc` (when the increment does not overflow), by a
`lock_release` of the lock owning `wc`, by a `cv_signal` whose most recently
recorded entry is that lock, and by a `cv_broadcast` that has that lock among
its recorded entries. -/
theorem wakeup_reaches_channel_head (s0 : State) (hinit : Initial s0)
    (evs : List Event) (s : State) (hrun : run s0 evs = Except.ok s)
    (T : Tid) (wc : Wchan) (hT : s.asleep T = true) (hpark : parked_on (s.pc T) = some wc) :
    (∀ sem v, v ∈ s.wchan (Wchan.sem sem) ↔ (s.asleep v = true ∧ s.pc v = Pc.P_119 sem)) ∧
    (∀ l v, v ∈ s.wchan (Wchan.lk l) ↔
      (s.asleep v = true ∧
        ((∃ k, s.pc v = Pc.acquire_210 l k) ∨ ∃ c, s.pc v = Pc.cv_302 c l))) ∧
    ((∀ v, s.asleep v = true → parked_on (s.pc v) = some wc → v = T) → s.wchan wc = [T]) ∧
    ((s.wchan wc).head? = some T → ∀ u, s.pc u = Pc.idle → s.asleep u = false →
      (∀ sem, wc = Wchan.sem sem → s.sem_count sem + 1 < 2 ^ 32 →
        ∃ s1, step s (Event.call u (Op.V sem)) = Except.ok s1 ∧ s1.asleep T = false) ∧
      (∀ l, wc = Wchan.lk l →
        ∃ s1, step s (Event.call u (Op.lock_release l)) = Except.ok s1 ∧ s1.asleep T = false) ∧
      (∀ l c l1, wc = Wchan.lk l → 0 < s.lockCount c →
        (s.locks c).get? (s.lockCount c - 1) = some l →
        ∃ s1, step s (Event.call u (Op.cv_signal c l1)) = Except.ok s1 ∧ s1.asleep T = false) ∧
      (∀ l c l1, wc = Wchan.lk l → l ∈ (s.locks c).take (s.lockCount c) →
        ∃ s1, step s (Event.call u (Op.cv_broadcast c l1)) = Except.ok s1 ∧
          s1.asleep T = false)) := by
  have hW : WF s :=
    run_inv WF (fun s e s1 h hs => WF_step s e s1 h hs) evs s0 s (WF_initial s0 hinit) hrun
  refine ⟨fun sem v => by rw [hW.2 v, parked_on_sem], fun l v => by rw [hW.2 v, parked_on_lk],
    only_sleeper s hW T wc hT hpark, ?_⟩
  intro hhead u hidle hawake
  refine ⟨?_, ?_, ?_, ?_⟩
  · intro sem hwc hno
    subst hwc
    exact ⟨_, step_V s u sem hidle hawake hno, wakeone_head _ _ T hhead⟩
  · intro l hwc
    subst hwc
    exact ⟨_, step_release s u l hidle hawake, wakeone_head _ _ T hhead⟩
  · intro l c l1 hwc hpos hget
    subst hwc
    exact ⟨_, step_signal s u c l1 l hidle hawake hpos hget, wakeone_head _ _ T hhead⟩
  · intro l c l1 hwc hmem
    subst hwc
    have hC : CvInv c s :=
      run_inv (CvInv c) (fun s e s1 h hs => CvInv_step c s e s1 h hs) evs s0 s
        (Initial_CvInv s0 hinit c) hrun
    exact ⟨_, step_broadcast s u c l1 hidle hawake hC.2.1, wake_each_head s _ l T hhead hmem⟩

/-- Instance of C3 as amended: a thread asleep in `P` on a semaphore of count 0
is made runnable by the next `V`. -/
theorem wakeup_reaches_channel_head_witness :
    ∃ s, run demo [Event.call 1 (Op.P 0)] = Except.ok s ∧
      s.asleep 1 = true ∧ parked_on (s.pc 1) = some (Wchan.sem 0) ∧
      (s.wchan (Wchan.sem 0)).head? = some 1 ∧
      ∃ s1, step s (Event.call 2 (Op.V 0)) = Except.ok s1 ∧ s1.asleep 1 = false :=
  ⟨after demo [Event.call 1 (Op.P 0)], rfl, by decide, by decide, by decide,
    ((wakeup_reaches_channel_head demo Initial_demo [Event.call 1 (Op.P 0)]
      (after demo [Event.call 1 (Op.P 0)]) rfl 1 (Wchan.sem 0) (by decide) (by decide)).2.2.2
        (by decide) 2 (by decide) (by decide)).1 0 rfl (by decide)⟩

/-- C4 (`cv_wait` returns holding the lock).  Whenever a transition takes thread
`t` from inside `cv_wait (c, l)` to outside every operation, that is, whenever
its `cv_wait` returns, `lk_thread` of `l` is `t`, `lock_do_i_hold` is true for
`t` and false for every other thread; and when the state was reached from the
creation of `l` by an interleaving in which only holders release, `t` is the
only thread inside an acquire-release window of `l`. -/
theorem cv_wait_returns_holding (s : State) (c : CvId) (l : LockId) (t : Tid) (e : Event)
    (s1 : State) (hin : in_cv_wait c l (s.pc t) = true)
    (hs : step s e = Except.ok s1) (hret : s1.pc t = Pc.idle) :
    s1.lk_thread l = some t ∧
    lock_do_i_hold true s1 t l = true ∧
    (∀ u, u ≠ t → lock_do_i_hold true s1 u l = false) ∧
    (∀ s0 evs, s0.log = [] →
      along (matching_release l) (lock_create s0 (some l) true true).2 evs = true →
      run (lock_create s0 (some l) true true).2 evs = Except.ok s →
      holders s1.log l = [t]) := by
  obtain ⟨he, _, hown⟩ := return_from_cv_wait s e s1 c l t hs hin hret
  refine ⟨hown, by simp [lock_do_i_hold, hown], ?_, ?_⟩
  · intro u hu
    simp only [lock_do_i_hold, hown, Bool.not_true, Bool.false_eq_true, if_false,
      Option.some.injEq, decide_eq_false_iff_not]
    exact fun h => hu h.symm
  · intro s0 evs hlog hd hrun
    have h0 : LockInv l (lock_create s0 (some l) true true).2 := by
      simp [LockInv, lock_create, hlog]
    have hI : LockInv l s :=
      run_along_inv (LockInv l) (matching_release l)
        (fun s e s1 h hg hs => LockInv_step l s e s1 h hg hs) evs _ s h0 hd hrun
    have hI1 : LockInv l s1 := LockInv_step l s e s1 hI (by subst he; rfl) hs
    unfold LockInv at hI1
    rw [hown] at hI1
    simpa using hI1

/-- Instance of C4: thread 1 waits, thread 2 takes the lock, signals and
releases; the next transition of thread 1 returns from `cv_wait` holding the
lock. -/
theorem cv_wait_returns_holding_witness :
    ∃ s s1, run demo wait_signal_release = Except.ok s ∧
      along (matching_release 0) demo wait_signal_release = true ∧
      step s (Event.resume 1) = Except.ok s1 ∧
      s.pc 1 = Pc.cv_310 0 0 ∧ s1.pc 1 = Pc.idle ∧
      s1.lk_thread 0 = some 1 ∧ lock_do_i_hold true s1 1 0 = true ∧
      (∀ u, u ≠ 1 → lock_do_i_hold true s1 u 0 = false) ∧ holders s1.log 0 = [1] :=
  have h := cv_wait_returns_holding (after demo wait_signal_release) 0 0 1 (Event.resume 1)
    (after demo (wait_signal_release ++ [Event.resume 1])) (by decide) rfl (by decide)
  ⟨after demo wait_signal_release, after demo (wait_signal_release ++ [Event.resume 1]),
    rfl, by decide, rfl, by decide, by decide, h.1, h.2.1, h.2.2.1,
    h.2.2.2 (cv_create (sem_create blank (some 0) true true 0).2 (some 0) true [0, 0]).2
      wait_signal_release rfl (by decide) rfl⟩

/-- C5 fails as stated.  Thread 1 is parked in `cv_wait` on condition variable 0
behind thread 4, which sleeps in `lock_acquire` on the same wait channel.  The
`cv_broadcast` of the lock owner, thread 3, issues its one wake-one, which goes
to thread 4: thread 1 is still asleep when `cv_broadcast` has returned. -/
theorem broadcast_leaves_waiter_asleep :
    ∃ s s1,
      run demo waiter_behind_acquirer = Except.ok s ∧
      step s (Event.call 3 (Op.cv_broadcast 0 0)) = Except.ok s1 ∧
      s.lk_thread 0 = some 3 ∧
      s.asleep 1 = true ∧ s.pc 1 = Pc.cv_302 0 0 ∧
      s.lockCount 0 = 1 ∧ s.locks 0 = [0, 0] ∧ s.wchan (Wchan.lk 0) = [4, 1] ∧
      s.pc 4 = Pc.acquire_210 0 none ∧
      s1.asleep 1 = true ∧ s1.pc 1 = Pc.cv_302 0 0 ∧ s1.asleep 4 = false ∧
      s1.log.drop s.log.length = [Obs.wakeone (Wchan.lk 0) (some 4)] :=
  ⟨after demo waiter_behind_acquirer,
    after demo (waiter_behind_acquirer ++ [Event.call 3 (Op.cv_broadcast 0 0)]),
    rfl, rfl, by decide, by decide, by decide, by decide, by decide, by decide, by decide,
    by decide, by decide, by decide, by decide⟩

/-- C5 as amended.  With the waiter count inside the array, `cv_broadcast`
returns, having issued exactly one `wchan_wakeone` per recorded entry
`locks[0 .. lockCount-1]`, in order, on the wait channel of that entry's lock.
When all recorded entries are one lock `l0`, the first `lockCount` threads of
that lock's queue, whichever operation parked them, are made runnable, the
queue keeps the rest, no other thread changes, and (the queue being
duplicate-free) each of those threads is woken exactly once by the call. -/
theorem cv_broadcast_wakes_heads (s : State) (t : Tid) (c : CvId) (l : LockId)
    (hidle : s.pc t = Pc.idle) (hawake : s.asleep t = false)
    (hbound : s.lockCount c ≤ (s.locks c).length) :
    ∃ s1, step s (Event.call t (Op.cv_broadcast c l)) = Except.ok s1 ∧
      s1 = wake_each s ((s.locks c).take (s.lockCount c)) ∧
      ∀ l0, (∀ lk ∈ (s.locks c).take (s.lockCount c), lk = l0) →
        s1.wchan (Wchan.lk l0) = (s.wchan (Wchan.lk l0)).drop (s.lockCount c) ∧
        (∀ u ∈ (s.wchan (Wchan.lk l0)).take (s.lockCount c), s1.asleep u = false) ∧
        (∀ u, u ∉ (s.wchan (Wchan.lk l0)).take (s.lockCount c) → s1.asleep u = s.asleep u) ∧
        ((s.wchan (Wchan.lk l0)).Nodup →
          ∀ u ∈ (s.wchan (Wchan.lk l0)).take (s.lockCount c),
            (s1.log.drop s.log.length).count (Obs.wakeone (Wchan.lk l0) (some u)) = 1) := by
  refine ⟨_, step_broadcast s t c l hidle hawake hbound, rfl, ?_⟩
  intro l0 hall
  have hlen : ((s.locks c).take (s.lockCount c)).length = s.lockCount c := by
    simp [hbound]
  obtain ⟨h1, h2, h3⟩ := wake_each_same l0 _ s hall
  rw [hlen] at h1 h2 h3
  refine ⟨h1, ?_, ?_, ?_⟩
  · intro u hu
    rw [h3, if_pos hu]
  · intro u hu
    rw [h3, if_neg hu]
  · intro hnd u hu
    rw [h2, List.drop_left, List.count_append]
    have hinj : Function.Injective (fun u => Obs.wakeone (Wchan.lk l0) (some u)) := by
      intro a b hab
      simpa using hab
    rw [List.count_map_of_injective _ _ hinj]
    have hnd2 : ((s.wchan (Wchan.lk l0)).take (s.lockCount c)).Nodup :=
      hnd.sublist (List.take_sublist _ _)
    rw [List.count_eq_one_of_mem hnd2 hu]
    simp [List.count_replicate]

/-- Instance of C5 as amended: one thread parked in `cv_wait` at the head of the
lock's queue is made runnable by `cv_broadcast`. -/
theorem cv_broadcast_wakes_heads_witness :
    ∃ s, run demo
        [Event.call 1 (Op.lock_acquire 0), Event.call 1 (Op.cv_wait 0 0), Event.resume 1,
          Event.call 2 (Op.lock_acquire 0)] = Except.ok s ∧
      s.asleep 1 = true ∧ s.wchan (Wchan.lk 0) = [1] ∧ s.lockCount 0 = 1 ∧
      ∃ s1, step s (Event.call 2 (Op.cv_broadcast 0 0)) = Except.ok s1 ∧
        s1.asleep 1 = false ∧ s1.wchan (Wchan.lk 0) = [] := by
  refine ⟨after demo
        [Event.call 1 (Op.lock_acquire 0), Event.call 1 (Op.cv_wait 0 0), Event.resume 1,
          Event.call 2 (Op.lock_acquire 0)], rfl, by decide, by decide, by decide, ?_⟩
  obtain ⟨s1, h1, _, h3⟩ := cv_broadcast_wakes_heads
    (after demo
        [Event.call 1 (Op.lock_acquire 0), Event.call 1 (Op.cv_wait 0 0), Event.resume 1,
          Event.call 2 (Op.lock_acquire 0)]) 2 0 0 (by decide) (by decide) (by decide)
  obtain ⟨h4, h5, _, _⟩ := h3 0 (by decide)
  exact ⟨s1, h1, h5 1 (by decide), by rw [h4]; decide⟩

/-- C6 (`cv_signal` is last-in-first-out and a no-op when empty).  With the
waiter count `n` inside the array: if `n > 0`, `cv_signal` returns the state
obtained by exactly one `wchan_wakeone`, on the wait channel of the entry
`locks[n-1]`, which is recorded once in the log, and leaves the count and the
array unchanged; if `n = 0` it returns the state unchanged. -/
theorem cv_signal_lifo (s : State) (t : Tid) (c : CvId) (l : LockId)
    (hidle : s.pc t = Pc.idle) (hawake : s.asleep t = false)
    (hbound : s.lockCount c ≤ (s.locks c).length) :
    (0 < s.lockCount c →
      ∃ lk s1, (s.locks c).get? (s.lockCount c - 1) = some lk ∧
        step s (Event.call t (Op.cv_signal c l)) = Except.ok s1 ∧
        s1 = wchan_wakeone s (Wchan.lk lk) ∧
        s1.log = s.log ++ [Obs.wakeone (Wchan.lk lk) (s.wchan (Wchan.lk lk)).head?] ∧
        s1.lockCount = s.lockCount ∧ s1.locks = s.locks) ∧
    (s.lockCount c = 0 → step s (Event.call t (Op.cv_signal c l)) = Except.ok s) := by
  have hstep : step s (Event.call t (Op.cv_signal c l)) = cv_signal s c l := by
    simp [step, hidle, hawake]
  rw [hstep]
  unfold cv_signal
  constructor
  · intro hpos
    have hlt : s.lockCount c - 1 < (s.locks c).length := by omega
    refine ⟨(s.locks c).get ⟨s.lockCount c - 1, hlt⟩, _, List.get?_eq_get hlt, ?_, rfl, ?_⟩
    · simp [hpos, List.getElem?_eq_getElem hlt]
    · simp
  · intro h0
    simp [h0]

/-- Instance of C6: two threads have recorded locks 3 and 4; `cv_signal` wakes on
the channel of lock 4. -/
theorem cv_signal_lifo_witness :
    ∃ s, run (cv_create blank (some 0) true [7, 7]).2
        [Event.call 1 (Op.cv_wait 0 3), Event.resume 1, Event.call 2 (Op.cv_wait 0 4),
          Event.resume 2] = Except.ok s ∧
      s.lockCount 0 = 2 ∧ s.locks 0 = [3, 4] ∧
      ((0 < s.lockCount 0 →
        ∃ lk s1, (s.locks 0).get? (s.lockCount 0 - 1) = some lk ∧
          step s (Event.call 5 (Op.cv_signal 0 3)) = Except.ok s1 ∧
          s1 = wchan_wakeone s (Wchan.lk lk) ∧
          s1.log = s.log ++ [Obs.wakeone (Wchan.lk lk) (s.wchan (Wchan.lk lk)).head?] ∧
          s1.lockCount = s.lockCount ∧ s1.locks = s.locks) ∧
      (s.lockCount 0 = 0 → step s (Event.call 5 (Op.cv_signal 0 3)) = Except.ok s)) :=
  ⟨_, rfl, by decide, by decide, cv_signal_lifo _ 5 0 3 (by decide) (by decide) (by decide)⟩

/-- C7 (`V` and counter overflow).  For a 32-bit count `c`: if `c < 2^32 - 1`,
`V` leaves the count at `c + 1` and issues exactly one `wchan_wakeone` on the
semaphore's wait channel; if `c = 2^32 - 1`, `V` hits the assertion of line
135; and `V` fails if and only if `c + 1` is not representable. -/
theorem V_overflow (s : State) (t : Tid) (sem : SemId)
    (hidle : s.pc t = Pc.idle) (hawake : s.asleep t = false) (hc : s.sem_count sem < 2 ^ 32) :
    (s.sem_count sem < 2 ^ 32 - 1 →
      step s (Event.call t (Op.V sem)) =
        Except.ok (wchan_wakeone
          { s with
            sem_count := upd s.sem_count sem (s.sem_count sem + 1)
            log := s.log ++ [Obs.inc sem t] } (Wchan.sem sem))) ∧
    (s.sem_count sem = 2 ^ 32 - 1 →
      step s (Event.call t (Op.V sem)) = Except.error (Stop.kassert 135)) ∧
    ((∃ x, step s (Event.call t (Op.V sem)) = Except.error x) ↔
      ¬ (s.sem_count sem + 1 < 2 ^ 32)) := by
  have hstep : step s (Event.call t (Op.V sem)) = V s t sem := by
    simp [step, hidle, hawake]
  rw [hstep]
  unfold V
  simp only [upd_same]
  by_cases h : s.sem_count sem + 1 < 2 ^ 32
  · have h1 : (s.sem_count sem + 1) % 2 ^ 32 = s.sem_count sem + 1 :=
      Nat.mod_eq_of_lt h
    rw [h1]
    simp [h]
    omega
  · have h2 : s.sem_count sem = 2 ^ 32 - 1 := by omega
    have h1 : (s.sem_count sem + 1) % 2 ^ 32 = 0 := by
      rw [h2]; norm_num
    rw [h1]
    simp [h]
    omega

/-- Instance of C7: `V` on a semaphore created with count `2^32 - 1` hits the
assertion, and on a semaphore of count 0 it does not fail. -/
theorem V_overflow_witness :
    step (sem_create blank (some 0) true true 4294967295).2 (Event.call 1 (Op.V 0)) =
      Except.error (Stop.kassert 135) ∧
    ((∃ x, step (sem_create blank (some 0) true true 0).2 (Event.call 1 (Op.V 0)) =
        Except.error x) ↔
      ¬ ((sem_create blank (some 0) true true 0).2.sem_count 0 + 1 < 2 ^ 32)) :=
  ⟨(V_overflow (sem_create blank (some 0) true true 4294967295).2 1 0 rfl rfl
      (by decide)).2.1 (by decide),
    (V_overflow (sem_create blank (some 0) true true 0).2 1 0 rfl rfl (by decide)).2.2⟩

/-- C8 fails on the code for `cv_wait`.  Thread 1 owns lock 0 and is in interrupt
context.  `P` and `lock_acquire` hit their assertions (lines 99 and 202) at
once.  `cv_wait` does not: its first guarded section releases the lock, and
its second records the lock, counts the waiter and puts the thread to sleep. -/
theorem cv_wait_in_interrupt_runs_on :
    ∃ s s1 s2,
      s = enter_interrupt (after demo [Event.call 1 (Op.lock_acquire 0)]) 1 ∧
      s.t_in_interrupt 1 = true ∧ s.lk_thread 0 = some 1 ∧ s.lockCount 0 = 0 ∧
      step s (Event.call 1 (Op.P 0)) = Except.error (Stop.kassert 99) ∧
      step s (Event.call 1 (Op.lock_acquire 0)) = Except.error (Stop.kassert 202) ∧
      step s (Event.call 1 (Op.cv_wait 0 0)) = Except.ok s1 ∧
      s1.lk_thread 0 = none ∧
      s1.log = s.log ++ [Obs.released 0 1, Obs.wakeone (Wchan.lk 0) none] ∧
      step s1 (Event.resume 1) = Except.ok s2 ∧
      s2.asleep 1 = true ∧ s2.lockCount 0 = 1 ∧ s2.wchan (Wchan.lk 0) = [1] :=
  ⟨enter_interrupt (after demo [Event.call 1 (Op.lock_acquire 0)]) 1,
    after (enter_interrupt (after demo [Event.call 1 (Op.lock_acquire 0)]) 1)
      [Event.call 1 (Op.cv_wait 0 0)],
    after (enter_interrupt (after demo [Event.call 1 (Op.lock_acquire 0)]) 1)
      [Event.call 1 (Op.cv_wait 0 0), Event.resume 1],
    rfl, by decide, by decide, by decide, rfl, rfl, rfl, by decide, by decide, rfl,
    by decide, by decide, by decide⟩

/-- C9 fails on the code.  With one thread asleep in `cv_wait` and the waiter
count at 1, `cv_destroy` hits no assertion and frees the name and the
condition variable. -/
theorem cv_destroy_frees_with_waiter :
    ∃ s,
      run demo [Event.call 1 (Op.lock_acquire 0), Event.call 1 (Op.cv_wait 0 0), Event.resume 1]
        = Except.ok s ∧
      s.lockCount 0 = 1 ∧ s.asleep 1 = true ∧ s.pc 1 = Pc.cv_302 0 0 ∧
      cv_destroy s (some 0) = Except.ok [HeapObj.cv_name 0, HeapObj.cv 0] :=
  ⟨after demo [Event.call 1 (Op.lock_acquire 0), Event.call 1 (Op.cv_wait 0 0), Event.resume 1],
    rfl, by decide, by decide, by decide, rfl⟩

/-- C10 fails as stated.  Threads 1 and 2 wait on one condition variable with
locks 1 and 2; thread 1 is woken first and leaves.  The count is 1 and the one
waiting thread, thread 2, waited with lock 2, but the recorded entry
`locks[0]` is lock 1. -/
theorem entries_not_locks_of_waiters :
    ∃ s,
      run demo2 two_locks_first_leaves = Except.ok s ∧
      s.lockCount 0 = 1 ∧ s.locks 0 = [1, 2] ∧
      waiting s.log 0 = [(2, 2)] ∧ s.pc 2 = Pc.cv_302 0 2 ∧ s.asleep 2 = true ∧
      s.wchan (Wchan.lk 2) = [2] ∧ s.wchan (Wchan.lk 1) = [] ∧
      (s.locks 0).take (s.lockCount 0) = [1] ∧
      (s.locks 0).take (s.lockCount 0) ≠ (waiting s.log 0).map Prod.snd :=
  ⟨after demo2 two_locks_first_leaves, rfl, by decide, by decide, by decide, by decide,
    by decide, by decide, by decide, by decide, by decide⟩

/-- C10 as amended.  A condition variable is created by `cv_create` while no
thread is inside an operation; then any interleaving runs in which no `cv_wait`
records a lock when the array `locks` is already full, that is, in which no
more threads wait on it than the array holds (lines 298-300 do not test the
bound; a recording past the end stops the modelled run).  In the state reached
`lockCount` is the number of threads waiting on it, these are the threads at
the sleep of `cv_wait`, and a woken waiter passes the assertion of line 304
and decrements the count.  If every `cv_wait` on it was called with the same
lock, the entries `locks[0 .. lockCount-1]` are exactly the locks the waiting
threads waited with, in the order in which they started waiting. -/
theorem cv_waiter_list (s0 : State) (c : CvId) (arr : List LockId)
    (hlog : s0.log = []) (hpc : ∀ t, s0.pc t = Pc.idle)
    (evs : List Event) (s : State)
    (hroom : along (has_room c) (cv_create s0 (some c) true arr).2 evs = true)
    (hrun : run (cv_create s0 (some c) true arr).2 evs = Except.ok s) :
    s.lockCount c = (waiting s.log c).length ∧
    (∀ t l, (t, l) ∈ waiting s.log c ↔ s.pc t = Pc.cv_302 c l) ∧
    (∀ t l, s.pc t = Pc.cv_302 c l → s.asleep t = false →
      ∃ s1, step s (Event.resume t) = Except.ok s1 ∧ s1.lockCount c = s.lockCount c - 1) ∧
    (∀ l0, along (waits_with c l0) (cv_create s0 (some c) true arr).2 evs = true →
      (s.locks c).take (s.lockCount c) = (waiting s.log c).map Prod.snd) := by
  have h0 : CvInv c (cv_create s0 (some c) true arr).2 := by
    simp [CvInv, cv_create, hlog, hpc]
  have hI : CvInv c s :=
    run_along_inv (CvInv c) (has_room c) (fun s e s1 h _ hs => CvInv_step c s e s1 h hs)
      evs _ s h0 hroom hrun
  refine ⟨hI.1.symm, hI.2.2.2, ?_, ?_⟩
  · intro t l hp ha
    have hm := (hI.2.2.2 t l).2 hp
    have hpos : 0 < s.lockCount c := by
      rw [← hI.1]
      exact List.length_pos_of_mem hm
    have hstep : step s (Event.resume t) = Except.ok
        { s with
          lockCount := upd s.lockCount c (s.lockCount c - 1)
          pc := upd s.pc t (Pc.cv_310 c l)
          log := s.log ++ [Obs.cv_leave c l t] } := by
      simp only [step, ha, if_true, hp, cv_wait_302]
      rw [if_neg (by omega)]
    exact ⟨_, hstep, by simp⟩
  · intro l0 hal
    have hS0 : CvSame c l0 (cv_create s0 (some c) true arr).2 := by
      simp [CvSame, cv_create, hlog, hpc]
    have := run_along_inv (fun x => CvInv c x ∧ CvSame c l0 x) (waits_with c l0)
      (fun s e s1 h hg hs => CvSame_step c l0 s e s1 h hg hs) evs _ s ⟨h0, hS0⟩ hal hrun
    exact CvSame_entries c l0 s this.1 this.2

/-- Instance of C10 as amended: two threads wait with the same lock on a
condition variable with room for two, the first is woken and leaves; the
remaining entry is the lock of the remaining waiter. -/
theorem cv_waiter_list_witness :
    ∃ s, run demo one_lock_first_leaves = Except.ok s ∧
      along (has_room 0) demo one_lock_first_leaves = true ∧
      along (waits_with 0 0) demo one_lock_first_leaves = true ∧
      waiting s.log 0 = [(2, 0)] ∧
      s.lockCount 0 = (waiting s.log 0).length ∧
      (s.locks 0).take (s.lockCount 0) = (waiting s.log 0).map Prod.snd :=
  have h := cv_waiter_list
    (lock_create (sem_create blank (some 0) true true 0).2 (some 0) true true).2 0 [0, 0]
    rfl (fun _ => rfl) one_lock_first_leaves (after demo one_lock_first_leaves) (by decide) rfl
  ⟨after demo one_lock_first_leaves, rfl, by decide, by decide, by decide, h.1,
    h.2.2.2 0 (by decide)⟩

end Synch
